import Mathlib

/-!
Verification model of the a2a-settlement exchange.

This file shallow-embeds the settlement ledger of the repository
(`exchange/models.py`, `exchange/routes/settlement.py`,
`exchange/routes/accounts.py`, `exchange/tasks.py`, `exchange/auth.py`,
`exchange/middleware.py`) and the compliance Merkle log
(`compliance/merkle.py`) as pure Lean functions, and proves or refutes
the frozen claims about them.

Modelling conventions:
* Account, balance, escrow and transaction rows are list entries; the
  row id is the list index, which matches creation order (the database
  assigns ids at insert time and queries iterate in insertion order).
* Monetary columns are `BigInteger` in the source and are embedded as
  `Int` (no clamping happens anywhere in the source).
* Timestamps are minutes since the epoch, embedded as `Int`; each
  operation receives the current time `now` as an argument, mirroring
  `_now()` in the source.
* `Decimal` fee arithmetic is exact; `settings.fee_percent` is embedded
  as an exact fraction `feePctNum / feePctDen`.
* Operations raise `HTTPException` inside a `session.begin()` block, so
  a failed precondition rolls back every pending write; this is embedded
  by returning `Except.error` with the original state untouched.
* The session is configured with `autoflush=False` and the settlement
  routes never flush before `_auto_refund_dependents` runs, so every
  `SELECT` issued during `refund` sees the row versions from the start
  of the transaction while the returned ORM objects carry the in-memory
  updates.  The cascade is therefore embedded with its candidate set
  (`status == "held"`, `depends_on` non-null) taken from the state at
  the start of the operation, while balances and statuses are threaded
  through the current state.
* bcrypt hash checking is embedded as string equality of the presented
  key with the stored key (bcrypt verification succeeds exactly on the
  key that was hashed); reputation (a float not referenced by any
  claim), webhook dispatch, and response DTOs are not modelled.
-/

namespace A2ASE

/-- `Account.status` values used by the exchange. -/
inductive AStatus where
  | active
  | suspended
  | operator
deriving DecidableEq

/-- `Escrow.status` values (`exchange/models.py`, default `held`). -/
inductive EStatus where
  | held
  | released
  | refunded
  | expired
  | disputed
deriving DecidableEq

/-- `Transaction.tx_type` values. -/
inductive TxType where
  | mint
  | deposit
  | escrowHold
  | escrowRelease
  | escrowRefund
  | fee
deriving DecidableEq

/-- Row of the `accounts` table (fields used by the claims).
`frozen_until` does not exist in `exchange/models.py`; the spending
guard in `exchange/spending_guard.py` reads and writes it, which is one
of the divergences examined below. -/
structure AccountRec where
  status : AStatus
  apiKey : String
  prevApiKey : Option String
  keyRotatedAt : Option Int
  dailySpendLimit : Option Int
deriving DecidableEq

/-- Row of the `balances` table. -/
structure Bal where
  available : Int
  heldInEscrow : Int
  totalEarned : Int
  totalSpent : Int
deriving DecidableEq

/-- Row of the `escrows` table.  `disputeExpiresAt` has no column in
`exchange/models.py` even though `exchange/observers.py` filters on it;
it is carried here (never written by any settlement route) so that the
divergence is expressible. -/
structure EscrowRec where
  requesterId : Nat
  providerId : Nat
  amount : Int
  feeAmount : Int
  taskId : Option String
  dependsOn : List Nat
  status : EStatus
  disputeReason : Option String
  resolutionStrategy : Option String
  disputeExpiresAt : Option Int
  expiresAt : Int
  createdAt : Int
  resolvedAt : Option Int
deriving DecidableEq

/-- Row of the `transactions` table (description text omitted). -/
structure Txn where
  escrowId : Option Nat
  fromAccount : Option Nat
  toAccount : Option Nat
  amount : Int
  txType : TxType
  createdAt : Int
deriving DecidableEq

/-- The relevant `Settings` fields (`exchange/config.py`; `min_fee` is
referenced by `_fee_amount` although the checked-in `Settings` class
lacks the attribute, so it is a parameter here). -/
structure Settings where
  feePctNum : Int
  feePctDen : Int
  minFee : Int
  minEscrow : Int
  maxEscrow : Int
  starterTokens : Int
  defaultTtlMinutes : Int
  keyRotationGraceMinutes : Int
deriving DecidableEq

/-- Database state: list index is the row id / creation order. -/
structure St where
  accounts : List AccountRec
  balances : List Bal
  escrows : List EscrowRec
  txns : List Txn
deriving DecidableEq

/-- The empty database. -/
def St.init : St := ⟨[], [], [], []⟩

/-- Ceiling division of integers, `b > 0`:  `⌈a / b⌉`. -/
def intCeilDiv (a b : Int) : Int := (a + b - 1) / b

/-- `_fee_amount` (settlement.py): exact-decimal
`max(ceil(amount * fee_percent / 100), min_fee)`. -/
def feeAmount (S : Settings) (amount : Int) : Int :=
  max (intCeilDiv (amount * S.feePctNum) (100 * S.feePctDen)) S.minFee

/-- Sum of `available` over every balance row. -/
def sumAvail (s : St) : Int := (s.balances.map Bal.available).sum

/-- Sum of `held_in_escrow` over every balance row. -/
def sumHeld (s : St) : Int := (s.balances.map Bal.heldInEscrow).sum

/-- Total amount of transactions of one type. -/
def txTypeSum (t : TxType) (l : List Txn) : Int :=
  ((l.filter (fun x => x.txType = t)).map Txn.amount).sum

/-- Conservation invariant of claim C1:
`Σ available + Σ held_in_escrow + Σ fee = Σ mint + Σ deposit`. -/
def conserved (s : St) : Prop :=
  sumAvail s + sumHeld s + txTypeSum TxType.fee s.txns =
    txTypeSum TxType.mint s.txns + txTypeSum TxType.deposit s.txns

instance (s : St) : Decidable (conserved s) := by
  unfold conserved; infer_instance

/-- Error raised by a route: HTTP status plus a stable tag standing for
the `detail` text. -/
structure ApiErr where
  status : Nat
  tag : String
deriving DecidableEq

/-- Update one balance row in place; a missing row leaves the list
unchanged (the routes `continue` or 404 before mutating in that case). -/
def modBal (bs : List Bal) (i : Nat) (f : Bal → Bal) : List Bal :=
  match bs[i]? with
  | none => bs
  | some b => bs.set i (f b)

/-- Credit an escrow's `amount + fee` back to its requester, mark the
escrow with `status` and `resolved_at = now`, and append the
`escrow_refund` transaction.  Shared shape of the refund bookkeeping in
`expire_stale_escrows` (tasks.py, status `expired`) and
`_auto_refund_dependents` (settlement.py, status `refunded`); a missing
balance row skips the whole block (`continue`). -/
def refundRow (status : EStatus) (now : Int) (i : Nat) (s : St) : St :=
  match s.escrows[i]? with
  | none => s
  | some e =>
    match s.balances[e.requesterId]? with
    | none => s
    | some b =>
      let total := e.amount + e.feeAmount
      { s with
        balances := s.balances.set e.requesterId
          { b with available := b.available + total
                 , heldInEscrow := b.heldInEscrow - total }
        , escrows := s.escrows.set i
            { e with status := status, resolvedAt := some now }
        , txns := s.txns ++
            [⟨some i, none, some e.requesterId, total, TxType.escrowRefund, now⟩] }

/-- `expire_stale_escrows` (tasks.py): refund every escrow that is
`held` with `expires_at < now` in the state at the start of the
transaction, marking it `expired`. -/
def expireStale (now : Int) (s : St) : St :=
  (List.range s.escrows.length).foldl
    (fun acc i =>
      match s.escrows[i]? with
      | none => acc
      | some e =>
        if e.status = EStatus.held ∧ e.expiresAt < now then
          refundRow EStatus.expired now i acc
        else acc)
    s

/-- `register` (accounts.py): new account, starter balance, `mint`
transaction.  Name-uniqueness and invite checks touch no ledger row and
are not modelled. -/
def registerOp (S : Settings) (now : Int) (key : String) (limit : Option Int)
    (s : St) : St :=
  { s with
    accounts := s.accounts ++ [⟨AStatus.active, key, none, none, limit⟩]
    , balances := s.balances ++ [⟨S.starterTokens, 0, 0, 0⟩]
    , txns := s.txns ++
        [⟨none, none, some s.accounts.length, S.starterTokens, TxType.mint, now⟩] }

/-- `deposit` (settlement.py). -/
def depositOp (now : Int) (caller : Nat) (amt : Int) (s : St) :
    Except ApiErr St :=
  if amt ≤ 0 then .error ⟨400, "DEPOSIT_NOT_POSITIVE"⟩
  else
    match s.balances[caller]? with
    | none => .error ⟨404, "ACCOUNT_NOT_FOUND"⟩
    | some b =>
      .ok { s with
            balances := s.balances.set caller
              { b with available := b.available + amt }
            , txns := s.txns ++
                [⟨none, none, some caller, amt, TxType.deposit, now⟩] }

/-- Start of the current UTC day (`_now().replace(hour=0, ...)`),
with time in minutes. -/
def midnightOf (now : Int) : Int := (Int.ediv now 1440) * 1440

/-- Sum of `escrow_hold` transaction amounts sent by `acct` since
`todayStart`. -/
def spentSince (s : St) (acct : Nat) (todayStart : Int) : Int :=
  ((s.txns.filter (fun t =>
      t.fromAccount = some acct ∧ t.txType = TxType.escrowHold ∧
        todayStart ≤ t.createdAt)).map Txn.amount).sum

/-- `_check_daily_spend_limit` (settlement.py): the window is the
current calendar day, the check raises 400 and freezes nothing. -/
def checkDailySpendLimit (s : St) (acct : Nat) (newHold : Int) (now : Int) :
    Option ApiErr :=
  match s.accounts[acct]? with
  | none => none
  | some a =>
    match a.dailySpendLimit with
    | none => none
    | some limit =>
      if limit ≤ 0 then none
      else if limit < spentSince s acct (midnightOf now) + newHold then
        some ⟨400, "SPEND_LIMIT_EXCEEDED"⟩
      else none

/-- The partial unique index `uq_active_task_escrow`: a `held` escrow
already exists for (requester, provider, non-null task id). -/
def taskConflict (es : List EscrowRec) (requester provider : Nat)
    (taskId : Option String) : Prop :=
  taskId ≠ none ∧ ∃ e ∈ es,
    e.requesterId = requester ∧ e.providerId = provider ∧
      e.taskId = taskId ∧ e.status = EStatus.held

instance (es : List EscrowRec) (r p : Nat) (t : Option String) :
    Decidable (taskConflict es r p t) := by
  unfold taskConflict; infer_instance

/-- The `depends_on` validation of `create_escrow`: the number of
distinct escrow rows whose id is listed and whose requester is the
caller must equal the length of the list. -/
def depsValid (s : St) (caller : Nat) (deps : List Nat) : Prop :=
  ((deps.dedup).filter
      (fun d => decide ((s.escrows[d]?).map EscrowRec.requesterId = some caller))).length
    = deps.length

instance (s : St) (c : Nat) (deps : List Nat) : Decidable (depsValid s c deps) := by
  unfold depsValid; infer_instance

/-- `create_escrow` (settlement.py), checks in source order; the task
conflict is detected by the unique index against the row versions from
the start of the transaction. -/
def createEscrowOp (S : Settings) (now : Int) (caller provider : Nat)
    (amount : Int) (ttl : Option Int) (taskId : Option String)
    (deps : List Nat) (s : St) : Except ApiErr St :=
  if amount < S.minEscrow ∨ S.maxEscrow < amount then
    .error ⟨400, "AMOUNT_RANGE"⟩
  else if caller = provider then .error ⟨400, "SELF_ESCROW"⟩
  else
    let fee := feeAmount S amount
    let total := amount + fee
    let expiresAt := now + ttl.getD S.defaultTtlMinutes
    let s1 := expireStale now s
    match s1.balances[caller]? with
    | none => .error ⟨404, "REQUESTER_NOT_FOUND"⟩
    | some b =>
      if b.available < total then .error ⟨400, "INSUFFICIENT_FUNDS"⟩
      else
        match checkDailySpendLimit s1 caller total now with
        | some err => .error err
        | none =>
          match s1.accounts[provider]? with
          | none => .error ⟨404, "PROVIDER_NOT_FOUND"⟩
          | some p =>
            if p.status ≠ AStatus.active then
              .error ⟨400, "INACTIVE_PROVIDER"⟩
            else if deps ≠ [] ∧ ¬ depsValid s1 caller deps then
              .error ⟨400, "BAD_DEPENDS_ON"⟩
            else if taskConflict s.escrows caller provider taskId then
              .error ⟨409, "TASK_CONFLICT"⟩
            else
              .ok { s1 with
                    balances := s1.balances.set caller
                      { b with available := b.available - total
                             , heldInEscrow := b.heldInEscrow + total }
                    , escrows := s1.escrows ++
                        [⟨caller, provider, amount, fee, taskId, deps,
                          EStatus.held, none, none, none, expiresAt, now, none⟩]
                    , txns := s1.txns ++
                        [⟨some s1.escrows.length, some caller, none, total,
                          TxType.escrowHold, now⟩] }

/-- The `depends_on` entries of `release` that are not yet `released`
(the SQL `id IN (...) AND status != 'released'` only returns rows that
exist). -/
def unresolvedDeps (s : St) (deps : List Nat) : List Nat :=
  deps.filter (fun d =>
    match s.escrows[d]? with
    | some de => decide (de.status ≠ EStatus.released)
    | none => false)

/-- The conditional platform-fee transaction appended by `release` and
by `resolve` with resolution `release` (`if escrow.fee_amount > 0`). -/
def feeTxnList (eid rid : Nat) (fee now : Int) : List Txn :=
  if 0 < fee then [⟨some eid, some rid, none, fee, TxType.fee, now⟩] else []

/-- `release` (settlement.py). -/
def releaseOp (S : Settings) (now : Int) (caller : Nat) (eid : Nat) (s : St) :
    Except ApiErr St :=
  let s1 := expireStale now s
  match s1.escrows[eid]? with
  | none => .error ⟨404, "ESCROW_NOT_FOUND"⟩
  | some e =>
    if e.requesterId ≠ caller then .error ⟨403, "NOT_REQUESTER"⟩
    else if e.status ≠ EStatus.held then .error ⟨400, "NOT_HELD"⟩
    else if unresolvedDeps s1 e.dependsOn ≠ [] then
      .error ⟨400, "DEPENDENCY_UNRESOLVED"⟩
    else
      let total := e.amount + e.feeAmount
      match s1.balances[e.requesterId]?, s1.balances[e.providerId]? with
      | some _, some _ =>
        .ok { s1 with
              balances :=
                modBal
                  (modBal s1.balances e.requesterId (fun b =>
                    { b with heldInEscrow := b.heldInEscrow - total
                           , totalSpent := b.totalSpent + total }))
                  e.providerId (fun b =>
                    { b with available := b.available + e.amount
                           , totalEarned := b.totalEarned + e.amount })
              , escrows := s1.escrows.set eid
                  { e with status := EStatus.released, resolvedAt := some now }
              , txns := s1.txns ++
                  (⟨some eid, some e.requesterId, some e.providerId, e.amount,
                     TxType.escrowRelease, now⟩ ::
                   feeTxnList eid e.requesterId e.feeAmount now) }
      | _, _ => .error ⟨404, "BALANCE_NOT_FOUND"⟩

/-- Candidate set of `_auto_refund_dependents`, read from the row
versions at the start of the transaction (`autoflush=False`, no flush
before the cascade): escrows that were `held` with non-null
`depends_on`. -/
def snapHeldDeps (s0 : St) : List Nat :=
  (List.range s0.escrows.length).filter (fun i =>
    match s0.escrows[i]? with
    | some e => decide (e.status = EStatus.held ∧ e.dependsOn ≠ [])
    | none => false)

/-- `depends_on` of escrow `i` (never mutated after creation). -/
def depsOf (s0 : St) (i : Nat) : List Nat :=
  ((s0.escrows[i]?).map EscrowRec.dependsOn).getD []

/-- `_auto_refund_dependents` (settlement.py): depth-first recursion.
The candidate rows and `depends_on` values come from `s0` (the state at
the start of the transaction, see module comment); balances and
statuses are threaded through the current state.  The source recursion
is unbounded; `fuel` bounds the nesting depth and
`cascade_fuel_irrelevant` below shows `s0.escrows.length` is enough on
states whose dependencies point to earlier escrows. -/
def cascade (s0 : St) (now : Int) : Nat → Nat → St → St
  | 0, _, s => s
  | fuel + 1, upstream, s =>
    (snapHeldDeps s0).foldl
      (fun acc j =>
        if upstream ∈ depsOf s0 j then
          match acc.escrows[j]? with
          | none => acc
          | some e =>
            match acc.balances[e.requesterId]? with
            | none => acc
            | some _ =>
              cascade s0 now fuel j (refundRow EStatus.refunded now j acc)
        else acc)
      s

/-- `refund` (settlement.py): refund the escrow, then auto-refund its
dependents. -/
def refundOp (S : Settings) (now : Int) (caller : Nat) (eid : Nat) (s : St) :
    Except ApiErr St :=
  let s1 := expireStale now s
  match s1.escrows[eid]? with
  | none => .error ⟨404, "ESCROW_NOT_FOUND"⟩
  | some e =>
    if e.requesterId ≠ caller then .error ⟨403, "NOT_REQUESTER"⟩
    else if e.status ≠ EStatus.held then .error ⟨400, "NOT_HELD"⟩
    else
      match s1.balances[e.requesterId]? with
      | none => .error ⟨404, "BALANCE_NOT_FOUND"⟩
      | some b =>
        let total := e.amount + e.feeAmount
        let s2 :=
          { s1 with
            balances := s1.balances.set e.requesterId
              { b with available := b.available + total
                     , heldInEscrow := b.heldInEscrow - total }
            , escrows := s1.escrows.set eid
                { e with status := EStatus.refunded, resolvedAt := some now }
            , txns := s1.txns ++
                [⟨some eid, none, some e.requesterId, total,
                  TxType.escrowRefund, now⟩] }
        .ok (cascade s now s.escrows.length eid s2)

/-- `dispute` (settlement.py): no expiry sweep, sets only the status
and the reason (in particular `dispute_expires_at` stays untouched). -/
def disputeOp (now : Int) (caller : Nat) (eid : Nat) (reason : String)
    (s : St) : Except ApiErr St :=
  match s.escrows[eid]? with
  | none => .error ⟨404, "ESCROW_NOT_FOUND"⟩
  | some e =>
    if caller ≠ e.requesterId ∧ caller ≠ e.providerId then
      .error ⟨403, "NOT_PARTY"⟩
    else if e.status ≠ EStatus.held then .error ⟨400, "NOT_HELD"⟩
    else
      .ok { s with
            escrows := s.escrows.set eid
              { e with status := EStatus.disputed
                     , disputeReason := some reason } }

/-- `resolve` (settlement.py); `toRelease` selects the
`resolution = "release"` branch. -/
def resolveOp (now : Int) (caller : Nat) (eid : Nat) (toRelease : Bool)
    (strategy : Option String) (s : St) : Except ApiErr St :=
  match s.accounts[caller]? with
  | none => .error ⟨403, "NOT_OPERATOR"⟩
  | some a =>
    if a.status ≠ AStatus.operator then .error ⟨403, "NOT_OPERATOR"⟩
    else
      match s.escrows[eid]? with
      | none => .error ⟨404, "ESCROW_NOT_FOUND"⟩
      | some e =>
        if e.status ≠ EStatus.disputed then .error ⟨400, "NOT_DISPUTED"⟩
        else
          let total := e.amount + e.feeAmount
          if toRelease then
            match s.balances[e.requesterId]?, s.balances[e.providerId]? with
            | some _, some _ =>
              .ok { s with
                    balances :=
                      modBal
                        (modBal s.balances e.requesterId (fun b =>
                          { b with heldInEscrow := b.heldInEscrow - total
                                 , totalSpent := b.totalSpent + total }))
                        e.providerId (fun b =>
                          { b with available := b.available + e.amount
                                 , totalEarned := b.totalEarned + e.amount })
                    , escrows := s.escrows.set eid
                        { e with status := EStatus.released
                               , resolvedAt := some now
                               , resolutionStrategy := strategy }
                    , txns := s.txns ++
                        (⟨some eid, some e.requesterId, some e.providerId,
                           e.amount, TxType.escrowRelease, now⟩ ::
                         feeTxnList eid e.requesterId e.feeAmount now) }
            | _, _ => .error ⟨404, "BALANCE_NOT_FOUND"⟩
          else
            match s.balances[e.requesterId]? with
            | none => .error ⟨404, "BALANCE_NOT_FOUND"⟩
            | some b =>
              .ok { s with
                    balances := s.balances.set e.requesterId
                      { b with available := b.available + total
                             , heldInEscrow := b.heldInEscrow - total }
                    , escrows := s.escrows.set eid
                        { e with status := EStatus.refunded
                               , resolvedAt := some now
                               , resolutionStrategy := strategy }
                    , txns := s.txns ++
                        [⟨some eid, none, some e.requesterId, total,
                          TxType.escrowRefund, now⟩] }

/-- One `depends_on` entry of a batch item: a `$k` back-reference to an
earlier item, or a literal escrow id. -/
inductive DepRef where
  | batchIdx (k : Nat)
  | literal (d : Nat)
deriving DecidableEq

/-- One item of a batch escrow request. -/
structure BatchItem where
  providerId : Nat
  amount : Int
  taskId : Option String
  ttl : Option Int
  deps : List DepRef
deriving DecidableEq

/-- Resolve the `depends_on` references of batch item `idx`; `$k` must
point at an earlier item.  A literal id is a uuid, which can only denote
an escrow that already exists (`base` rows); an unknown uuid never
matches any row and is embedded as invalid. -/
def resolveDeps (base idx : Nat) : List DepRef → Option (List Nat)
  | [] => some []
  | DepRef.batchIdx k :: rest =>
    if k < idx then (resolveDeps base idx rest).map (fun l => (base + k) :: l)
    else none
  | DepRef.literal d :: rest =>
    if d < base then (resolveDeps base idx rest).map (fun l => d :: l)
    else none

/-- The per-item loop of `batch_create_escrow`. -/
def batchItems (S : Settings) (now : Int) (caller base : Nat) :
    List BatchItem → Nat → St → Except ApiErr St
  | [], _, s => .ok s
  | it :: rest, idx, s =>
    let fee := feeAmount S it.amount
    let total := it.amount + fee
    match s.accounts[it.providerId]? with
    | none => .error ⟨404, "PROVIDER_NOT_FOUND"⟩
    | some p =>
      if p.status ≠ AStatus.active then .error ⟨400, "INACTIVE_PROVIDER"⟩
      else
        match resolveDeps base idx it.deps with
        | none => .error ⟨400, "BAD_BATCH_DEP"⟩
        | some rdeps =>
          if taskConflict s.escrows caller it.providerId it.taskId then
            .error ⟨409, "TASK_CONFLICT"⟩
          else
            batchItems S now caller base rest (idx + 1)
              { s with
                balances := modBal s.balances caller (fun b =>
                  { b with available := b.available - total
                         , heldInEscrow := b.heldInEscrow + total })
                , escrows := s.escrows ++
                    [⟨caller, it.providerId, it.amount, fee, it.taskId, rdeps,
                      EStatus.held, none, none, none,
                      now + it.ttl.getD S.defaultTtlMinutes, now, none⟩]
                , txns := s.txns ++
                    [⟨some s.escrows.length, some caller, none, total,
                      TxType.escrowHold, now⟩] }

/-- `batch_create_escrow` (settlement.py): upfront validation over the
whole batch, then the per-item loop. -/
def batchCreateOp (S : Settings) (now : Int) (caller : Nat)
    (items : List BatchItem) (s : St) : Except ApiErr St :=
  let s1 := expireStale now s
  match s1.balances[caller]? with
  | none => .error ⟨404, "REQUESTER_NOT_FOUND"⟩
  | some b =>
    if items.any (fun it =>
        decide (it.amount < S.minEscrow ∨ S.maxEscrow < it.amount)) then
      .error ⟨400, "AMOUNT_RANGE"⟩
    else if items.any (fun it => decide (caller = it.providerId)) then
      .error ⟨400, "SELF_ESCROW"⟩
    else
      let totalNeeded := (items.map (fun it => it.amount + feeAmount S it.amount)).sum
      if b.available < totalNeeded then .error ⟨400, "INSUFFICIENT_FUNDS"⟩
      else
        match checkDailySpendLimit s1 caller totalNeeded now with
        | some err => .error err
        | none => batchItems S now caller s1.escrows.length items 0 s1

/-- A committed ledger operation, with the authenticated caller already
resolved to its account id. -/
inductive Op where
  | register (key : String) (limit : Option Int)
  | deposit (caller : Nat) (amount : Int)
  | createEscrow (caller provider : Nat) (amount : Int) (ttl : Option Int)
      (taskId : Option String) (deps : List Nat)
  | batchCreate (caller : Nat) (items : List BatchItem)
  | release (caller : Nat) (eid : Nat)
  | refund (caller : Nat) (eid : Nat)
  | dispute (caller : Nat) (eid : Nat) (reason : String)
  | resolve (caller : Nat) (eid : Nat) (toRelease : Bool)
      (strategy : Option String)
  | sweep
deriving DecidableEq

/-- Dispatch one operation. -/
def applyOp (S : Settings) (now : Int) (op : Op) (s : St) : Except ApiErr St :=
  match op with
  | .register key limit => .ok (registerOp S now key limit s)
  | .deposit c a => depositOp now c a s
  | .createEscrow c p a ttl tid deps => createEscrowOp S now c p a ttl tid deps s
  | .batchCreate c items => batchCreateOp S now c items s
  | .release c e => releaseOp S now c e s
  | .refund c e => refundOp S now c e s
  | .dispute c e r => disputeOp now c e r s
  | .resolve c e b strat => resolveOp now c e b strat s
  | .sweep => .ok (expireStale now s)

/-- A failed operation rolls its transaction back: the committed state
is unchanged. -/
def commit (s : St) : Except ApiErr St → St
  | .ok s' => s'
  | .error _ => s

/-- Run a sequence of timed operations, committing each success. -/
def runOps (S : Settings) (ops : List (Int × Op)) (s : St) : St :=
  ops.foldl (fun acc p => commit acc (applyOp S p.1 p.2 acc)) s

/-! ### Conservation (claim C1): helper lemmas -/

theorem sum_map_set {α : Type} (g : α → Int) :
    ∀ (l : List α) (i : Nat) (x b : α), l[i]? = some b →
      ((l.set i x).map g).sum = (l.map g).sum + g x - g b := by
  intro l
  induction l with
  | nil => intro i x b h; simp at h
  | cons a t ih =>
    intro i x b h
    cases i with
    | zero =>
      simp only [List.getElem?_cons_zero, Option.some_inj] at h
      subst h
      simp [List.set]
      ring
    | succ n =>
      simp only [List.getElem?_cons_succ] at h
      simp only [List.set, List.map_cons, List.sum_cons, ih n x b h]
      ring

theorem sum_map_modBal (g : Bal → Int) (bs : List Bal) (i : Nat) (f : Bal → Bal) :
    ((modBal bs i f).map g).sum =
      (bs.map g).sum +
        (match bs[i]? with
         | some b => g (f b) - g b
         | none => 0) := by
  cases h : bs[i]? with
  | none => simp [modBal, h]
  | some b => simp only [modBal, h, sum_map_set g bs i (f b) b h]; ring

theorem txTypeSum_append (t : TxType) (a b : List Txn) :
    txTypeSum t (a ++ b) = txTypeSum t a + txTypeSum t b := by
  simp [txTypeSum, List.filter_append]

theorem txTypeSum_cons (t : TxType) (x : Txn) (l : List Txn) :
    txTypeSum t (x :: l) =
      (if x.txType = t then x.amount else 0) + txTypeSum t l := by
  by_cases h : x.txType = t <;> simp [txTypeSum, List.filter_cons, h]

theorem foldl_preserve {β α : Type} {P : β → Prop} (f : β → α → β)
    (h : ∀ b a, P b → P (f b a)) :
    ∀ (l : List α) (b : β), P b → P (l.foldl f b) := by
  intro l
  induction l with
  | nil => intro b hb; simpa using hb
  | cons a t ih => intro b hb; exact ih (f b a) (h b a hb)

/-- Every stored escrow fee is non-negative. -/
def FeeOk (s : St) : Prop := ∀ e ∈ s.escrows, 0 ≤ e.feeAmount

/-- Induction invariant for conservation. -/
def ConsInv (s : St) : Prop := conserved s ∧ FeeOk s

theorem txTypeSum_nil (t : TxType) : txTypeSum t [] = 0 := rfl

theorem refundRow_consInv (st : EStatus) (now : Int) (i : Nat) (s : St)
    (h : ConsInv s) : ConsInv (refundRow st now i s) := by
  obtain ⟨hc, hf⟩ := h
  cases he : s.escrows[i]? with
  | none => simpa [refundRow, he] using And.intro hc hf
  | some e =>
    cases hb : s.balances[e.requesterId]? with
    | none => simpa [refundRow, he, hb] using And.intro hc hf
    | some b =>
      simp only [refundRow, he, hb]
      constructor
      · unfold conserved sumAvail sumHeld at hc ⊢
        simp only [sum_map_set Bal.available s.balances _ _ b hb,
          sum_map_set Bal.heldInEscrow s.balances _ _ b hb,
          txTypeSum_append, txTypeSum_cons, txTypeSum_nil]
        simp only [show (TxType.escrowRefund = TxType.fee) = False from by decide,
          show (TxType.escrowRefund = TxType.mint) = False from by decide,
          show (TxType.escrowRefund = TxType.deposit) = False from by decide,
          if_false]
        linarith
      · intro x hx
        rcases List.mem_or_eq_of_mem_set hx with hmem | rfl
        · exact hf x hmem
        · exact hf e (List.getElem?_mem he)

theorem expireStale_consInv (now : Int) (s : St) (h : ConsInv s) :
    ConsInv (expireStale now s) := by
  unfold expireStale
  apply foldl_preserve _ _ _ _ h
  intro b i hb
  cases he : s.escrows[i]? with
  | none => simpa [he] using hb
  | some e =>
    simp only [he]
    split
    · exact refundRow_consInv _ _ _ _ hb
    · exact hb

theorem cascade_consInv (s0 : St) (now : Int) :
    ∀ (fuel : Nat) (u : Nat) (s : St), ConsInv s →
      ConsInv (cascade s0 now fuel u s) := by
  intro fuel
  induction fuel with
  | zero => intro u s h; simpa [cascade] using h
  | succ f ih =>
    intro u s h
    simp only [cascade]
    apply foldl_preserve _ _ _ _ h
    intro b j hb
    split
    · cases hej : b.escrows[j]? with
      | none => simpa [hej] using hb
      | some e =>
        simp only [hej]
        cases hbj : b.balances[e.requesterId]? with
        | none => simpa using hb
        | some _ =>
          simp only
          exact ih j _ (refundRow_consInv _ _ _ _ hb)
    · exact hb

theorem lt_of_getElem?_some {α : Type} {l : List α} {i : Nat} {a : α}
    (h : l[i]? = some a) : i < l.length :=
  (List.getElem?_eq_some_iff.mp h).1

theorem sum_map_modBal_delta (g : Bal → Int) (bs : List Bal) (i : Nat)
    (f : Bal → Bal) (d : Int) (hd : ∀ b, g (f b) = g b + d) :
    ((modBal bs i f).map g).sum =
      (bs.map g).sum + (if i < bs.length then d else 0) := by
  rw [sum_map_modBal]
  cases h : bs[i]? with
  | none =>
    have hge : bs.length ≤ i := by
      by_contra hlt
      push_neg at hlt
      rw [List.getElem?_eq_getElem hlt] at h
      simp at h
    simp [Nat.not_lt.mpr hge]
  | some b =>
    have := lt_of_getElem?_some h
    simp [this, hd b]

theorem registerOp_consInv (S : Settings) (now : Int) (key : String)
    (limit : Option Int) (s : St) (h : ConsInv s) :
    ConsInv (registerOp S now key limit s) := by
  obtain ⟨hc, hf⟩ := h
  constructor
  · unfold conserved sumAvail sumHeld at hc ⊢
    simp only [registerOp, List.map_append, List.sum_append,
      txTypeSum_append, txTypeSum_cons, txTypeSum_nil]
    simp
    linarith
  · intro e he
    simp only [registerOp] at he
    exact hf e he

theorem depositOp_consInv (now : Int) (c : Nat) (a : Int) (s s' : St)
    (h : depositOp now c a s = .ok s') (hi : ConsInv s) : ConsInv s' := by
  obtain ⟨hc, hf⟩ := hi
  unfold depositOp at h
  split at h
  · exact absurd h (by simp)
  · split at h
    next => exact absurd h (by simp)
    next b hb =>
      simp only [Except.ok.injEq] at h
      subst h
      refine ⟨?_, hf⟩
      unfold conserved sumAvail sumHeld at hc ⊢
      simp only [sum_map_set Bal.available s.balances _ _ b hb,
        sum_map_set Bal.heldInEscrow s.balances _ _ b hb,
        txTypeSum_append, txTypeSum_cons, txTypeSum_nil]
      simp
      linarith

theorem createEscrowOp_consInv (S : Settings) (now : Int)
    (c p : Nat) (amount : Int) (ttl : Option Int) (tid : Option String)
    (deps : List Nat) (s s' : St) (hS : 0 ≤ S.minFee)
    (h : createEscrowOp S now c p amount ttl tid deps s = .ok s')
    (hi : ConsInv s) : ConsInv s' := by
  have hinv1 : ConsInv (expireStale now s) := expireStale_consInv now s hi
  obtain ⟨hc, hf⟩ := hinv1
  simp only [createEscrowOp] at h
  cases hb : (expireStale now s).balances[c]? with
  | none =>
    simp only [hb] at h
    repeat' split at h
    all_goals exact Except.noConfusion h
  | some b =>
    simp only [hb] at h
    cases hsp : checkDailySpendLimit (expireStale now s) c
        (amount + feeAmount S amount) now with
    | some err =>
      simp only [hsp] at h
      repeat' split at h
      all_goals exact Except.noConfusion h
    | none =>
      simp only [hsp] at h
      cases hpa : (expireStale now s).accounts[p]? with
      | none =>
        simp only [hpa] at h
        repeat' split at h
        all_goals exact Except.noConfusion h
      | some prov =>
        simp only [hpa] at h
        repeat' split at h
        all_goals try exact Except.noConfusion h
        injection h with h
        subst h
        constructor
        · unfold conserved sumAvail sumHeld at hc ⊢
          simp only [sum_map_set Bal.available _ _ _ b hb,
            sum_map_set Bal.heldInEscrow _ _ _ b hb,
            txTypeSum_append, txTypeSum_cons, txTypeSum_nil]
          simp
          linarith
        · intro e he
          rcases List.mem_append.mp he with hmem | hnew
          · exact hf e hmem
          · simp only [List.mem_singleton] at hnew
            subst hnew
            exact le_trans hS (le_max_right _ _)

theorem releaseCore_conserved
    (bs : List Bal) (txs : List Txn) (rid pid eidx : Nat)
    (amh feeh : Int) (now : Int)
    (hfee : 0 ≤ feeh)
    (hc : (bs.map Bal.available).sum + (bs.map Bal.heldInEscrow).sum +
        txTypeSum TxType.fee txs =
      txTypeSum TxType.mint txs + txTypeSum TxType.deposit txs)
    (hrb : rid < bs.length) (hpb : pid < bs.length) :
    ((modBal
        (modBal bs rid (fun b =>
          { b with heldInEscrow := b.heldInEscrow - (amh + feeh)
                 , totalSpent := b.totalSpent + (amh + feeh) }))
        pid (fun b =>
          { b with available := b.available + amh
                 , totalEarned := b.totalEarned + amh })).map Bal.available).sum +
    ((modBal
        (modBal bs rid (fun b =>
          { b with heldInEscrow := b.heldInEscrow - (amh + feeh)
                 , totalSpent := b.totalSpent + (amh + feeh) }))
        pid (fun b =>
          { b with available := b.available + amh
                 , totalEarned := b.totalEarned + amh })).map Bal.heldInEscrow).sum +
      txTypeSum TxType.fee (txs ++
        (⟨some eidx, some rid, some pid, amh, TxType.escrowRelease, now⟩ ::
         feeTxnList eidx rid feeh now)) =
    txTypeSum TxType.mint (txs ++
        (⟨some eidx, some rid, some pid, amh, TxType.escrowRelease, now⟩ ::
         feeTxnList eidx rid feeh now)) +
      txTypeSum TxType.deposit (txs ++
        (⟨some eidx, some rid, some pid, amh, TxType.escrowRelease, now⟩ ::
         feeTxnList eidx rid feeh now)) := by
  have h1 := sum_map_modBal_delta Bal.heldInEscrow bs rid
    (fun b => { b with heldInEscrow := b.heldInEscrow - (amh + feeh)
                     , totalSpent := b.totalSpent + (amh + feeh) })
    (-(amh + feeh)) (fun b => by simp; ring)
  have h2 := sum_map_modBal_delta Bal.available bs rid
    (fun b => { b with heldInEscrow := b.heldInEscrow - (amh + feeh)
                     , totalSpent := b.totalSpent + (amh + feeh) })
    0 (fun b => by simp)
  have hlen : (modBal bs rid (fun b =>
      { b with heldInEscrow := b.heldInEscrow - (amh + feeh)
             , totalSpent := b.totalSpent + (amh + feeh) })).length = bs.length := by
    unfold modBal
    cases hx : bs[rid]? <;> simp
  have h3 := sum_map_modBal_delta Bal.available
    (modBal bs rid (fun b =>
      { b with heldInEscrow := b.heldInEscrow - (amh + feeh)
             , totalSpent := b.totalSpent + (amh + feeh) })) pid
    (fun b => { b with available := b.available + amh
                     , totalEarned := b.totalEarned + amh })
    amh (fun b => by simp)
  have h4 := sum_map_modBal_delta Bal.heldInEscrow
    (modBal bs rid (fun b =>
      { b with heldInEscrow := b.heldInEscrow - (amh + feeh)
             , totalSpent := b.totalSpent + (amh + feeh) })) pid
    (fun b => { b with available := b.available + amh
                     , totalEarned := b.totalEarned + amh })
    0 (fun b => by simp)
  rw [h3, h4, h1, h2, hlen]
  simp only [txTypeSum_append, txTypeSum_cons, feeTxnList]
  by_cases hlt : 0 < feeh
  · simp [hrb, hpb, hlt, txTypeSum_cons, txTypeSum_nil]
    linarith
  · have hz : feeh = 0 := le_antisymm (not_lt.mp hlt) hfee
    simp [hrb, hpb, hlt, hz, txTypeSum_cons, txTypeSum_nil]
    linarith

theorem releaseOp_consInv (S : Settings) (now : Int) (c eid : Nat) (s s' : St)
    (h : releaseOp S now c eid s = .ok s') (hi : ConsInv s) : ConsInv s' := by
  obtain ⟨hc, hf⟩ := expireStale_consInv now s hi
  simp only [releaseOp] at h
  cases he : (expireStale now s).escrows[eid]? with
  | none => simp only [he] at h; exact Except.noConfusion h
  | some e =>
    simp only [he] at h
    cases hrb : (expireStale now s).balances[e.requesterId]? with
    | none =>
      simp only [hrb] at h
      repeat' split at h
      all_goals exact Except.noConfusion h
    | some rb =>
      cases hpb : (expireStale now s).balances[e.providerId]? with
      | none =>
        simp only [hrb, hpb] at h
        repeat' split at h
        all_goals exact Except.noConfusion h
      | some pb =>
        simp only [hrb, hpb] at h
        repeat' split at h
        all_goals try exact Except.noConfusion h
        injection h with h
        subst h
        constructor
        · show conserved _
          unfold conserved sumAvail sumHeld
          dsimp only
          exact releaseCore_conserved (expireStale now s).balances
            (expireStale now s).txns e.requesterId e.providerId eid
            e.amount e.feeAmount now (hf e (List.getElem?_mem he)) hc
            (lt_of_getElem?_some hrb) (lt_of_getElem?_some hpb)
        · intro x hx
          rcases List.mem_or_eq_of_mem_set hx with hmem | rfl
          · exact hf x hmem
          · exact hf e (List.getElem?_mem he)

theorem refundOp_consInv (S : Settings) (now : Int) (c eid : Nat) (s s' : St)
    (h : refundOp S now c eid s = .ok s') (hi : ConsInv s) : ConsInv s' := by
  obtain ⟨hc, hf⟩ := expireStale_consInv now s hi
  simp only [refundOp] at h
  cases he : (expireStale now s).escrows[eid]? with
  | none => simp only [he] at h; exact Except.noConfusion h
  | some e =>
    simp only [he] at h
    cases hrb : (expireStale now s).balances[e.requesterId]? with
    | none =>
      simp only [hrb] at h
      repeat' split at h
      all_goals exact Except.noConfusion h
    | some rb =>
      simp only [hrb] at h
      repeat' split at h
      all_goals try exact Except.noConfusion h
      injection h with h
      subst h
      apply cascade_consInv
      constructor
      · unfold conserved sumAvail sumHeld at hc ⊢
        simp only [sum_map_set Bal.available _ _ _ rb hrb,
          sum_map_set Bal.heldInEscrow _ _ _ rb hrb,
          txTypeSum_append, txTypeSum_cons, txTypeSum_nil]
        simp
        linarith
      · intro x hx
        rcases List.mem_or_eq_of_mem_set hx with hmem | rfl
        · exact hf x hmem
        · exact hf e (List.getElem?_mem he)

theorem disputeOp_consInv (now : Int) (c eid : Nat) (reason : String)
    (s s' : St) (h : disputeOp now c eid reason s = .ok s')
    (hi : ConsInv s) : ConsInv s' := by
  obtain ⟨hc, hf⟩ := hi
  simp only [disputeOp] at h
  cases he : s.escrows[eid]? with
  | none => simp only [he] at h; exact Except.noConfusion h
  | some e =>
    simp only [he] at h
    repeat' split at h
    all_goals try exact Except.noConfusion h
    injection h with h
    subst h
    constructor
    · exact hc
    · intro x hx
      rcases List.mem_or_eq_of_mem_set hx with hmem | rfl
      · exact hf x hmem
      · exact hf e (List.getElem?_mem he)

theorem resolveOp_consInv (now : Int) (c eid : Nat) (toRelease : Bool)
    (strategy : Option String) (s s' : St)
    (h : resolveOp now c eid toRelease strategy s = .ok s')
    (hi : ConsInv s) : ConsInv s' := by
  obtain ⟨hc, hf⟩ := hi
  simp only [resolveOp] at h
  cases ha : s.accounts[c]? with
  | none => simp only [ha] at h; exact Except.noConfusion h
  | some acct =>
    simp only [ha] at h
    cases he : s.escrows[eid]? with
    | none =>
      simp only [he] at h
      repeat' split at h
      all_goals exact Except.noConfusion h
    | some e =>
      simp only [he] at h
      cases toRelease with
      | true =>
        simp only [show ((true : Bool) = true) = True from by simp, if_true] at h
        cases hrb : s.balances[e.requesterId]? with
        | none =>
          simp only [hrb] at h
          repeat' split at h
          all_goals exact Except.noConfusion h
        | some rb =>
          cases hpb : s.balances[e.providerId]? with
          | none =>
            simp only [hrb, hpb] at h
            repeat' split at h
            all_goals exact Except.noConfusion h
          | some pb =>
            simp only [hrb, hpb] at h
            repeat' split at h
            all_goals try exact Except.noConfusion h
            injection h with h
            subst h
            constructor
            · show conserved _
              unfold conserved sumAvail sumHeld
              dsimp only
              exact releaseCore_conserved s.balances s.txns
                e.requesterId e.providerId eid e.amount e.feeAmount now
                (hf e (List.getElem?_mem he)) hc
                (lt_of_getElem?_some hrb) (lt_of_getElem?_some hpb)
            · intro x hx
              rcases List.mem_or_eq_of_mem_set hx with hmem | rfl
              · exact hf x hmem
              · exact hf e (List.getElem?_mem he)
      | false =>
        simp only [show ((false : Bool) = true) = False from by simp, if_false] at h
        cases hrb : s.balances[e.requesterId]? with
        | none =>
          simp only [hrb] at h
          repeat' split at h
          all_goals exact Except.noConfusion h
        | some rb =>
          simp only [hrb] at h
          repeat' split at h
          all_goals try exact Except.noConfusion h
          injection h with h
          subst h
          constructor
          · unfold conserved sumAvail sumHeld at hc ⊢
            simp only [sum_map_set Bal.available _ _ _ rb hrb,
              sum_map_set Bal.heldInEscrow _ _ _ rb hrb,
              txTypeSum_append, txTypeSum_cons, txTypeSum_nil]
            simp
            linarith
          · intro x hx
            rcases List.mem_or_eq_of_mem_set hx with hmem | rfl
            · exact hf x hmem
            · exact hf e (List.getElem?_mem he)

theorem batchItems_consInv (S : Settings) (now : Int) (c base : Nat)
    (hS : 0 ≤ S.minFee) :
    ∀ (items : List BatchItem) (idx : Nat) (s s' : St),
      batchItems S now c base items idx s = .ok s' → ConsInv s → ConsInv s' := by
  intro items
  induction items with
  | nil =>
    intro idx s s' h hi
    simp only [batchItems, Except.ok.injEq] at h
    subst h
    exact hi
  | cons it rest ih =>
    intro idx s s' h hi
    obtain ⟨hc, hf⟩ := hi
    simp only [batchItems] at h
    cases hpa : s.accounts[it.providerId]? with
    | none => simp only [hpa] at h; exact Except.noConfusion h
    | some prov =>
      simp only [hpa] at h
      cases hrd : resolveDeps base idx it.deps with
      | none =>
        simp only [hrd] at h
        repeat' split at h
        all_goals exact Except.noConfusion h
      | some rdeps =>
        simp only [hrd] at h
        repeat' split at h
        all_goals try exact Except.noConfusion h
        refine ih _ _ _ h ⟨?_, ?_⟩
        · unfold conserved sumAvail sumHeld at hc ⊢
          rw [sum_map_modBal_delta Bal.available s.balances c _
              (-(it.amount + feeAmount S it.amount)) (fun b => by simp; try ring),
            sum_map_modBal_delta Bal.heldInEscrow s.balances c _
              (it.amount + feeAmount S it.amount) (fun b => by simp; try ring)]
          simp only [txTypeSum_append, txTypeSum_cons, txTypeSum_nil]
          by_cases hcl : c < s.balances.length <;> simp [hcl] <;> linarith
        · intro x hx
          rcases List.mem_append.mp hx with hmem | hnew
          · exact hf x hmem
          · simp only [List.mem_singleton] at hnew
            subst hnew
            exact le_trans hS (le_max_right _ _)

theorem batchCreateOp_consInv (S : Settings) (now : Int) (c : Nat)
    (items : List BatchItem) (s s' : St) (hS : 0 ≤ S.minFee)
    (h : batchCreateOp S now c items s = .ok s') (hi : ConsInv s) :
    ConsInv s' := by
  have h1 := expireStale_consInv now s hi
  simp only [batchCreateOp] at h
  cases hb : (expireStale now s).balances[c]? with
  | none => simp only [hb] at h; exact Except.noConfusion h
  | some b =>
    simp only [hb] at h
    cases hsp : checkDailySpendLimit (expireStale now s) c
        ((items.map (fun it => it.amount + feeAmount S it.amount)).sum) now with
    | some err =>
      simp only [hsp] at h
      repeat' split at h
      all_goals exact Except.noConfusion h
    | none =>
      simp only [hsp] at h
      repeat' split at h
      all_goals try exact Except.noConfusion h
      exact batchItems_consInv S now c _ hS items 0 _ s' h h1

theorem applyOp_consInv (S : Settings) (now : Int) (op : Op) (s s' : St)
    (hS : 0 ≤ S.minFee) (h : applyOp S now op s = .ok s') (hi : ConsInv s) :
    ConsInv s' := by
  cases op with
  | register key limit =>
    simp only [applyOp, Except.ok.injEq] at h
    subst h
    exact registerOp_consInv S now key limit s hi
  | deposit c a => exact depositOp_consInv now c a s s' h hi
  | createEscrow c p a ttl tid deps =>
    exact createEscrowOp_consInv S now c p a ttl tid deps s s' hS h hi
  | batchCreate c items => exact batchCreateOp_consInv S now c items s s' hS h hi
  | release c e => exact releaseOp_consInv S now c e s s' h hi
  | refund c e => exact refundOp_consInv S now c e s s' h hi
  | dispute c e r => exact disputeOp_consInv now c e r s s' h hi
  | resolve c e b strat => exact resolveOp_consInv now c e b strat s s' h hi
  | sweep =>
    simp only [applyOp, Except.ok.injEq] at h
    subst h
    exact expireStale_consInv now s hi

theorem runOps_consInv (S : Settings) (ops : List (Int × Op)) (s : St)
    (hS : 0 ≤ S.minFee) (hi : ConsInv s) : ConsInv (runOps S ops s) := by
  unfold runOps
  apply foldl_preserve _ _ _ _ hi
  intro b p hb
  cases hres : applyOp S p.1 p.2 b with
  | error e => simpa [commit, hres] using hb
  | ok s2 =>
    simpa [commit, hres] using applyOp_consInv S p.1 p.2 b s2 hS hres hb

/-- Default settings used in the concrete scenarios: 3 percent fee,
minimum fee 1, escrow range 1..10000, 100 starter tokens, 30 minute
TTL, 5 minute rotation grace. -/
def defaultS : Settings := ⟨3, 1, 1, 1, 10000, 100, 30, 5⟩

/-- **C1.**  For every committed sequence of ledger operations starting
from the empty database,
`Σ available + Σ held_in_escrow + Σ fee = Σ mint + Σ deposit`:
every operation either transfers value between `available` and
`held_in_escrow`, or pairs its balance change with a matching `mint`,
`deposit` or `fee` transaction row. -/
theorem c1_conservation (S : Settings) (hS : 0 ≤ S.minFee)
    (ops : List (Int × Op)) : conserved (runOps S ops St.init) := by
  have hinit : ConsInv St.init := by
    constructor
    · decide
    · intro e he
      simp [St.init] at he
  exact (runOps_consInv S ops St.init hS hinit).1

/-- Witness for C1: a concrete run (register, deposit, escrow, release,
second escrow, refund) conserves tokens. -/
theorem c1_conservation_witness :
    0 ≤ defaultS.minFee ∧
      conserved (runOps defaultS
        [(0, Op.register "ka" none), (0, Op.register "kb" none),
         (1, Op.deposit 0 40), (2, Op.createEscrow 0 1 50 none none []),
         (3, Op.release 0 0), (4, Op.createEscrow 0 1 10 none none []),
         (5, Op.refund 0 1)] St.init) :=
  ⟨by decide, c1_conservation defaultS (by decide) _⟩

/-! ### Claim C2: the release contract -/

/-- `available` of account `i` (0 when the row is missing). -/
def availAt (s : St) (i : Nat) : Int :=
  ((s.balances[i]?).map Bal.available).getD 0

/-- `held_in_escrow` of account `i`. -/
def heldAt (s : St) (i : Nat) : Int :=
  ((s.balances[i]?).map Bal.heldInEscrow).getD 0

/-- `total_earned` of account `i`. -/
def earnedAt (s : St) (i : Nat) : Int :=
  ((s.balances[i]?).map Bal.totalEarned).getD 0

/-- `total_spent` of account `i`. -/
def spentAt (s : St) (i : Nat) : Int :=
  ((s.balances[i]?).map Bal.totalSpent).getD 0

/-- Status of escrow `i`. -/
def statusAt (s : St) (i : Nat) : Option EStatus :=
  (s.escrows[i]?).map EscrowRec.status

/-- If no held escrow is past its TTL, the synchronous mini-sweep is a
no-op. -/
theorem expireStale_id (now : Int) (s : St)
    (h : ∀ x ∈ s.escrows, x.status = EStatus.held → now ≤ x.expiresAt) :
    expireStale now s = s := by
  unfold expireStale
  apply foldl_preserve (P := fun x => x = s)
  · intro b i hb
    cases he : s.escrows[i]? with
    | none => simpa [he] using hb
    | some e =>
      simp only [he]
      split
      next hcond =>
        exact absurd hcond.2 (not_lt.mpr (h e (List.getElem?_mem he) hcond.1))
      next => exact hb
  · rfl

theorem getElem?_modBal_ne (bs : List Bal) (i j : Nat) (f : Bal → Bal)
    (h : i ≠ j) : (modBal bs i f)[j]? = bs[j]? := by
  unfold modBal
  cases hx : bs[i]? with
  | none => rfl
  | some b => exact List.getElem?_set_ne h

theorem getElem?_modBal_self (bs : List Bal) (i : Nat) (f : Bal → Bal)
    (b : Bal) (h : bs[i]? = some b) : (modBal bs i f)[i]? = some (f b) := by
  unfold modBal
  rw [h]
  exact List.getElem?_set_self (lt_of_getElem?_some h)

theorem unresolvedDeps_eq_nil_iff (s : St) (deps : List Nat)
    (hwf : ∀ d ∈ deps, d < s.escrows.length) :
    unresolvedDeps s deps = [] ↔
      ∀ d ∈ deps, ∃ de, s.escrows[d]? = some de ∧
        de.status = EStatus.released := by
  unfold unresolvedDeps
  rw [List.filter_eq_nil_iff]
  constructor
  · intro h d hd
    have hp := h d hd
    cases hde : s.escrows[d]? with
    | none =>
      have : d < s.escrows.length := hwf d hd
      rw [List.getElem?_eq_getElem this] at hde
      exact absurd hde (by simp)
    | some de =>
      refine ⟨de, rfl, ?_⟩
      simp only [hde, decide_eq_true_eq] at hp
      exact not_not.mp hp
  · intro h d hd
    obtain ⟨de, hde, hst⟩ := h d hd
    simp [hde, hst]

/-- **C2.**  `release(escrow_id, caller)` succeeds exactly when the
escrow exists, the caller is its requester, its status is `held`, every
`depends_on` escrow is `released`, and both balance rows exist; on
success the provider gains `amount` in `available` and `total_earned`,
the requester loses `amount + fee` from `held_in_escrow` and gains it
in `total_spent`, the status becomes `released`, and an
`escrow_release` transaction plus (when fee > 0) a `fee` transaction
are appended.  Failures return an error, and the transaction rollback
leaves the state unchanged by construction.  Stated on states where no
held escrow is past its TTL, so that the synchronous mini-sweep inside
the route is the identity. -/
theorem c2_release_contract (S : Settings) (now : Int) (caller eid : Nat)
    (s : St)
    (hsw : ∀ x ∈ s.escrows, x.status = EStatus.held → now ≤ x.expiresAt)
    (hwf : ∀ d ∈ depsOf s eid, d < s.escrows.length) :
    ((∃ s2, releaseOp S now caller eid s = .ok s2) ↔
      ∃ e, s.escrows[eid]? = some e ∧ e.requesterId = caller ∧
        e.status = EStatus.held ∧
        (∀ d ∈ e.dependsOn, ∃ de, s.escrows[d]? = some de ∧
          de.status = EStatus.released) ∧
        e.requesterId < s.balances.length ∧
        e.providerId < s.balances.length)
    ∧
    (∀ s2 e, releaseOp S now caller eid s = .ok s2 →
      s.escrows[eid]? = some e → e.requesterId ≠ e.providerId →
      availAt s2 e.providerId = availAt s e.providerId + e.amount ∧
      earnedAt s2 e.providerId = earnedAt s e.providerId + e.amount ∧
      heldAt s2 e.requesterId =
        heldAt s e.requesterId - (e.amount + e.feeAmount) ∧
      spentAt s2 e.requesterId =
        spentAt s e.requesterId + (e.amount + e.feeAmount) ∧
      statusAt s2 eid = some EStatus.released ∧
      s2.txns = s.txns ++
        (⟨some eid, some e.requesterId, some e.providerId, e.amount,
           TxType.escrowRelease, now⟩ ::
         feeTxnList eid e.requesterId e.feeAmount now)) := by
  have hid : expireStale now s = s := expireStale_id now s hsw
  constructor
  · constructor
    · rintro ⟨s2, h⟩
      simp only [releaseOp, hid] at h
      cases he : s.escrows[eid]? with
      | none => simp only [he] at h; exact Except.noConfusion h
      | some e =>
        simp only [he] at h
        refine ⟨e, rfl, ?_⟩
        by_cases h1 : e.requesterId = caller
        case neg =>
          rw [if_pos h1] at h
          exact Except.noConfusion h
        rw [if_neg (by simp [h1])] at h
        by_cases h2 : e.status = EStatus.held
        case neg =>
          rw [if_pos h2] at h
          exact Except.noConfusion h
        rw [if_neg (by simp [h2])] at h
        by_cases h3 : unresolvedDeps s e.dependsOn = []
        case neg =>
          rw [if_pos h3] at h
          exact Except.noConfusion h
        rw [if_neg (by simp [h3])] at h
        have hwfe : ∀ d ∈ e.dependsOn, d < s.escrows.length := by
          intro d hd
          apply hwf
          unfold depsOf
          simp [he, hd]
        refine ⟨h1, h2, (unresolvedDeps_eq_nil_iff s e.dependsOn hwfe).mp h3, ?_, ?_⟩
        · cases hrb : s.balances[e.requesterId]? with
          | none =>
            cases hpb : s.balances[e.providerId]? with
            | none => simp only [hrb, hpb] at h; exact Except.noConfusion h
            | some pb => simp only [hrb, hpb] at h; exact Except.noConfusion h
          | some rb => exact lt_of_getElem?_some hrb
        · cases hpb : s.balances[e.providerId]? with
          | none =>
            cases hrb : s.balances[e.requesterId]? with
            | none => simp only [hrb, hpb] at h; exact Except.noConfusion h
            | some rb => simp only [hrb, hpb] at h; exact Except.noConfusion h
          | some pb => exact lt_of_getElem?_some hpb
    · rintro ⟨e, he, h1, h2, h3, h4, h5⟩
      have hwfe : ∀ d ∈ e.dependsOn, d < s.escrows.length := by
        intro d hd
        apply hwf
        unfold depsOf
        simp [he, hd]
      have hdeps : unresolvedDeps s e.dependsOn = [] :=
        (unresolvedDeps_eq_nil_iff s e.dependsOn hwfe).mpr h3
      simp only [releaseOp, hid, he, if_neg (by simp [h1] : ¬ e.requesterId ≠ caller),
        if_neg (by simp [h2] : ¬ e.status ≠ EStatus.held),
        if_neg (by simp [hdeps] : ¬ unresolvedDeps s e.dependsOn ≠ []),
        List.getElem?_eq_getElem h4, List.getElem?_eq_getElem h5]
      exact ⟨_, rfl⟩
  · intro s2 e h he hne
    simp only [releaseOp, hid, he] at h
    by_cases h1 : e.requesterId = caller
    case neg => rw [if_pos h1] at h; exact Except.noConfusion h
    rw [if_neg (by simp [h1])] at h
    by_cases h2 : e.status = EStatus.held
    case neg => rw [if_pos h2] at h; exact Except.noConfusion h
    rw [if_neg (by simp [h2])] at h
    by_cases h3 : unresolvedDeps s e.dependsOn = []
    case neg => rw [if_pos h3] at h; exact Except.noConfusion h
    rw [if_neg (by simp [h3])] at h
    cases hrb : s.balances[e.requesterId]? with
    | none =>
      cases hpb : s.balances[e.providerId]? with
      | none => simp only [hrb, hpb] at h; exact Except.noConfusion h
      | some pb => simp only [hrb, hpb] at h; exact Except.noConfusion h
    | some rb =>
      cases hpb : s.balances[e.providerId]? with
      | none => simp only [hrb, hpb] at h; exact Except.noConfusion h
      | some pb =>
        simp only [hrb, hpb] at h
        injection h with h
        subst h
        have hinner : (modBal s.balances e.requesterId (fun b =>
            { b with heldInEscrow := b.heldInEscrow - (e.amount + e.feeAmount)
                   , totalSpent := b.totalSpent + (e.amount + e.feeAmount) }))[e.providerId]?
            = some pb := by
          rw [getElem?_modBal_ne _ _ _ _ hne]
          exact hpb
        refine ⟨?_, ?_, ?_, ?_, ?_, rfl⟩
        · unfold availAt
          dsimp only
          rw [getElem?_modBal_self _ _ _ _ hinner, hpb]
          simp
        · unfold earnedAt
          dsimp only
          rw [getElem?_modBal_self _ _ _ _ hinner, hpb]
          simp
        · unfold heldAt
          dsimp only
          rw [getElem?_modBal_ne _ _ _ _ (Ne.symm hne),
            getElem?_modBal_self _ _ _ _ hrb, hrb]
          simp
        · unfold spentAt
          dsimp only
          rw [getElem?_modBal_ne _ _ _ _ (Ne.symm hne),
            getElem?_modBal_self _ _ _ _ hrb, hrb]
          simp
        · unfold statusAt
          dsimp only
          rw [List.getElem?_set_self (lt_of_getElem?_some he)]
          rfl

/-- Witness for C2: with two registered accounts and one held escrow,
`release` by the requester succeeds. -/
theorem c2_release_contract_witness :
    ∃ s2, releaseOp defaultS 5 0 0
      (runOps defaultS
        [(0, Op.register "ka" none), (0, Op.register "kb" none),
         (0, Op.createEscrow 0 1 50 none none [])] St.init) = .ok s2 :=
  ((c2_release_contract defaultS 5 0 0 _ (by decide) (by decide)).1).mpr
    (by decide)

/-! ### Claim C5: dispute does not set dispute-expires-at (code bug) -/

/-- **C5 (code-bug evidence).**  `dispute` by the requester or the
provider of a `held` escrow succeeds, sets the status to `disputed` and
stores the reason, and changes no balances and no transactions — but it
does *not* set `dispute_expires_at`: the field keeps its previous value
(`exchange/models.py` has no such column and no settlement route ever
writes it), even though the spec requires
`dispute-expires-at = now + dispute_ttl` and
`exchange/observers.py` (`expire_stale_disputes`) together with
`tests/test_timeout_observer.py` rely on it being set. -/
theorem c5_dispute_no_expiry (now : Int) (caller eid : Nat) (reason : String)
    (s : St) (e : EscrowRec) (he : s.escrows[eid]? = some e)
    (hcaller : caller = e.requesterId ∨ caller = e.providerId)
    (hheld : e.status = EStatus.held) :
    ∃ s2, disputeOp now caller eid reason s = .ok s2 ∧
      s2.balances = s.balances ∧ s2.txns = s.txns ∧
      statusAt s2 eid = some EStatus.disputed ∧
      (s2.escrows[eid]?).map EscrowRec.disputeReason = some (some reason) ∧
      (s2.escrows[eid]?).map EscrowRec.disputeExpiresAt =
        some e.disputeExpiresAt := by
  have hnot : ¬ (caller ≠ e.requesterId ∧ caller ≠ e.providerId) := by
    rcases hcaller with hc | hc <;> simp [hc]
  refine Exists.intro
    (St.mk s.accounts s.balances
      (s.escrows.set eid
        { e with status := EStatus.disputed, disputeReason := some reason })
      s.txns)
    ⟨?_, rfl, rfl, ?_, ?_, ?_⟩
  · simp only [disputeOp, he, if_neg hnot,
      if_neg (by simp [hheld] : ¬ e.status ≠ EStatus.held)]
  · unfold statusAt
    dsimp only
    rw [List.getElem?_set_self (lt_of_getElem?_some he)]
    rfl
  · dsimp only
    rw [List.getElem?_set_self (lt_of_getElem?_some he)]
    rfl
  · dsimp only
    rw [List.getElem?_set_self (lt_of_getElem?_some he)]
    rfl

/-- Witness for C5: concrete held escrow disputed by the requester; its
`dispute_expires_at` stays `none`. -/
theorem c5_dispute_no_expiry_witness :
    ∃ s2, disputeOp 5 0 0 "bad work"
        (runOps defaultS
          [(0, Op.register "ka" none), (0, Op.register "kb" none),
           (0, Op.createEscrow 0 1 50 none none [])] St.init) = .ok s2 ∧
      s2.balances = (runOps defaultS
          [(0, Op.register "ka" none), (0, Op.register "kb" none),
           (0, Op.createEscrow 0 1 50 none none [])] St.init).balances ∧
      s2.txns = (runOps defaultS
          [(0, Op.register "ka" none), (0, Op.register "kb" none),
           (0, Op.createEscrow 0 1 50 none none [])] St.init).txns ∧
      statusAt s2 0 = some EStatus.disputed ∧
      (s2.escrows[0]?).map EscrowRec.disputeReason = some (some "bad work") ∧
      (s2.escrows[0]?).map EscrowRec.disputeExpiresAt = some none :=
  c5_dispute_no_expiry 5 0 0 "bad work" _
    ⟨0, 1, 50, 2, none, [], EStatus.held, none, none, none, 30, 0, none⟩
    (by decide) (by decide) (by decide)

/-! ### Claim C6: spend-limit breach does not freeze the account
(code bug) -/

/-- The state of scenario S4: requester (account 0) registered with
`daily_spend_limit = 30`, provider (account 1), and a first escrow of
amount 20 (fee 1, hold 21) already created. -/
def spendState : St :=
  runOps defaultS
    [(0, Op.register "ka" (some 30)), (0, Op.register "kb" none),
     (0, Op.createEscrow 0 1 20 none none [])] St.init

/-- **C6 (code-bug evidence).**  `create_escrow` calls
`_check_daily_spend_limit` (settlement.py), which sums `escrow_hold`
transactions since midnight and raises a plain 400: no `frozen_until`
is ever written (the column does not even exist on `Account`), so the
account is not frozen and a later small escrow succeeds instead of
failing 423 `ACCOUNT_FROZEN`.  The freezing guard the claim describes
lives in `exchange/spending_guard.py` but no route invokes it, and
`tests/test_spending_guard.py` (which asserts the freeze, the 423 and
the rolling window) contradicts the wired code. -/
theorem c6_no_freeze_after_breach :
    createEscrowOp defaultS 1 0 1 20 none (some "second") [] spendState =
      .error ⟨400, "SPEND_LIMIT_EXCEEDED"⟩ ∧
    ∃ s2, createEscrowOp defaultS 2 0 1 1 none (some "blocked") [] spendState =
      .ok s2 := by
  constructor
  · rfl
  · exact ⟨_, rfl⟩

/-! ### Claim C9: fee arithmetic -/

theorem intCeilDiv_eq_ceil (a b : Int) (hb : 0 < b) :
    intCeilDiv a b = ⌈(a : ℚ) / (b : ℚ)⌉ := by
  have hbq : (0 : ℚ) < (b : ℚ) := by exact_mod_cast hb
  have hq := Int.ediv_add_emod (a + b - 1) b
  have hr0 : 0 ≤ (a + b - 1) % b := Int.emod_nonneg _ (by omega)
  have hrb : (a + b - 1) % b < b := Int.emod_lt_of_pos _ hb
  have h3 : ((a + b - 1) / b - 1) * b < a := by
    have e1 : ((a + b - 1) / b - 1) * b = b * ((a + b - 1) / b) - b := by ring
    rw [e1]
    linarith [hq, hr0]
  have h4 : a ≤ (a + b - 1) / b * b := by
    have e2 : (a + b - 1) / b * b = b * ((a + b - 1) / b) := by ring
    rw [e2]
    linarith [hq, hrb]
  symm
  rw [Int.ceil_eq_iff]
  unfold intCeilDiv
  constructor
  · rw [lt_div_iff₀ hbq]
    exact_mod_cast h3
  · rw [div_le_iff₀ hbq]
    exact_mod_cast h4

/-- **C9.**  The fee stored at creation is
`max(ceil(amount * fee_percent / 100), min_fee)` computed in exact
(rational) arithmetic; with `fee_percent = 3` and `min_fee ≤ 2`,
`amount = 50` gives fee 2 and `total_held = 52`; and when the
requester's `available` cannot cover `amount + fee`, creation fails
with 400 `INSUFFICIENT_FUNDS`. -/
theorem c9_fee_formula (S : Settings) (amount : Int)
    (hden : 0 < S.feePctDen) :
    (feeAmount S amount =
      max (⌈((amount * S.feePctNum : Int) : ℚ) /
            ((100 * S.feePctDen : Int) : ℚ)⌉) S.minFee) ∧
    (S.feePctNum = 3 → S.feePctDen = 1 → S.minFee ≤ 2 → 0 ≤ S.minFee →
      feeAmount S 50 = 2 ∧ 50 + feeAmount S 50 = 52) ∧
    (∀ (now : Int) (c p : Nat) (ttl : Option Int) (tid : Option String)
       (deps : List Nat) (s : St) (b : Bal),
      ¬ (amount < S.minEscrow ∨ S.maxEscrow < amount) → c ≠ p →
      (expireStale now s).balances[c]? = some b →
      b.available < amount + feeAmount S amount →
      createEscrowOp S now c p amount ttl tid deps s =
        .error ⟨400, "INSUFFICIENT_FUNDS"⟩) := by
  refine ⟨?_, ?_, ?_⟩
  · unfold feeAmount
    rw [intCeilDiv_eq_ceil _ _ (by positivity)]
  · intro h3 h1 hle h0
    have : feeAmount S 50 = 2 := by
      unfold feeAmount intCeilDiv
      rw [h3, h1]
      have hmax : max (2 : Int) S.minFee = 2 := max_eq_left hle
      norm_num
      omega
    exact ⟨this, by omega⟩
  · intro now c p ttl tid deps s b hrange hcp hb hlt
    simp only [createEscrowOp, if_neg hrange, if_neg hcp, hb, if_pos hlt]

/-- Witness for C9 at the default settings (3 percent, min fee 1):
fee(50) = 2 and a requester with 10 available cannot hold 52. -/
theorem c9_fee_formula_witness :
    (0 : Int) < defaultS.feePctDen ∧
      feeAmount defaultS 50 = 2 ∧
      createEscrowOp defaultS 0 0 1 50 none none []
        (runOps defaultS
          [(0, Op.register "ka" none), (0, Op.register "kb" none),
           (0, Op.createEscrow 0 1 47 none none [])] St.init) =
        .error ⟨400, "INSUFFICIENT_FUNDS"⟩ := by
  refine ⟨by decide, ((c9_fee_formula defaultS 50 (by decide)).2.1
    (by decide) (by decide) (by decide) (by decide)).1, ?_⟩
  exact (c9_fee_formula defaultS 50 (by decide)).2.2 0 0 1 none none []
    (runOps defaultS
      [(0, Op.register "ka" none), (0, Op.register "kb" none),
       (0, Op.createEscrow 0 1 47 none none [])] St.init)
    ⟨51, 49, 0, 0⟩ (by decide) (by decide) (by decide) (by decide)

/-! ### Claim C8: terminal escrows -/

/-- A terminal escrow status. -/
def TerminalStatus (st : EStatus) : Prop :=
  st = EStatus.released ∨ st = EStatus.refunded ∨ st = EStatus.expired

instance (st : EStatus) : Decidable (TerminalStatus st) := by
  unfold TerminalStatus; infer_instance

theorem foldl_preserve_mem {β α : Type} {P : β → Prop} (f : β → α → β) :
    ∀ (l : List α), (∀ b a, a ∈ l → P b → P (f b a)) →
      ∀ (b : β), P b → P (l.foldl f b) := by
  intro l
  induction l with
  | nil => intro _ b hb; simpa using hb
  | cons a t ih =>
    intro h b hb
    exact ih (fun b2 a2 ha2 => h b2 a2 (List.mem_cons_of_mem a ha2))
      (f b a) (h b a (List.mem_cons_self a t) hb)

theorem refundRow_escrows_ne (st : EStatus) (now : Int) (j : Nat) (s : St)
    (i : Nat) (hij : i ≠ j) :
    (refundRow st now j s).escrows[i]? = s.escrows[i]? := by
  cases he : s.escrows[j]? with
  | none => simp [refundRow, he]
  | some e =>
    cases hb : s.balances[e.requesterId]? with
    | none => simp [refundRow, he, hb]
    | some b =>
      simp only [refundRow, he, hb]
      exact List.getElem?_set_ne (Ne.symm hij)

theorem expireStale_preserve_row (now : Int) (s : St) (i : Nat) (e : EscrowRec)
    (he : s.escrows[i]? = some e) (hth : e.status ≠ EStatus.held) :
    (expireStale now s).escrows[i]? = some e := by
  unfold expireStale
  refine foldl_preserve (P := fun acc : St => acc.escrows[i]? = some e)
    _ ?_ _ _ he
  intro b j hb
  cases hej : s.escrows[j]? with
  | none => simpa [hej] using hb
  | some ej =>
    simp only [hej]
    split
    next hcond =>
      have hij : i ≠ j := by
        intro hji
        subst hji
        rw [he] at hej
        injection hej with hej
        subst hej
        exact hth hcond.1
      rw [refundRow_escrows_ne _ _ _ _ _ hij]
      exact hb
    next => exact hb

theorem mem_snapHeldDeps (s0 : St) (j : Nat) :
    j ∈ snapHeldDeps s0 ↔
      ∃ e, s0.escrows[j]? = some e ∧ e.status = EStatus.held ∧
        e.dependsOn ≠ [] := by
  unfold snapHeldDeps
  rw [List.mem_filter, List.mem_range]
  constructor
  · rintro ⟨hlt, hcond⟩
    cases he : s0.escrows[j]? with
    | none => rw [he] at hcond; simp at hcond
    | some e =>
      rw [he] at hcond
      simp only [decide_eq_true_eq] at hcond
      exact ⟨e, rfl, hcond.1, hcond.2⟩
  · rintro ⟨e, he, h1, h2⟩
    refine ⟨lt_of_getElem?_some he, ?_⟩
    rw [he]
    simp [h1, h2]

theorem cascade_preserve_row_notin (s0 : St) (now : Int) :
    ∀ (f u : Nat) (s : St) (i : Nat) (e : EscrowRec),
      i ∉ snapHeldDeps s0 → s.escrows[i]? = some e →
      (cascade s0 now f u s).escrows[i]? = some e := by
  intro f
  induction f with
  | zero => intro u s i e _ he; simpa [cascade] using he
  | succ fl ih =>
    intro u s i e hni he
    simp only [cascade]
    refine foldl_preserve_mem (P := fun acc : St => acc.escrows[i]? = some e)
      _ _ ?_ _ he
    intro b j hj hb
    split
    · cases hej : b.escrows[j]? with
      | none => simpa [hej] using hb
      | some ej =>
        simp only [hej]
        cases hbj : b.balances[ej.requesterId]? with
        | none => simpa using hb
        | some _ =>
          simp only
          have hij : i ≠ j := fun hx => hni (hx ▸ hj)
          apply ih _ _ _ _ hni
          rw [refundRow_escrows_ne _ _ _ _ _ hij]
          exact hb
    · exact hb

theorem batchItems_ok_preserve_row (S : Settings) (now : Int) (c base : Nat) :
    ∀ (items : List BatchItem) (idx : Nat) (s s2 : St) (i : Nat)
      (e : EscrowRec),
      batchItems S now c base items idx s = .ok s2 →
      s.escrows[i]? = some e → s2.escrows[i]? = some e := by
  intro items
  induction items with
  | nil =>
    intro idx s s2 i e h he
    simp only [batchItems, Except.ok.injEq] at h
    subst h
    exact he
  | cons it rest ih =>
    intro idx s s2 i e h he
    simp only [batchItems] at h
    cases hpa : s.accounts[it.providerId]? with
    | none => simp only [hpa] at h; exact Except.noConfusion h
    | some prov =>
      simp only [hpa] at h
      cases hrd : resolveDeps base idx it.deps with
      | none =>
        simp only [hrd] at h
        repeat' split at h
        all_goals exact Except.noConfusion h
      | some rdeps =>
        simp only [hrd] at h
        repeat' split at h
        all_goals try exact Except.noConfusion h
        refine ih _ _ _ _ _ h ?_
        dsimp only
        rw [List.getElem?_append_left (lt_of_getElem?_some he)]
        exact he

/-- **C8 (amended: committed-state part).**  An escrow whose status is
terminal (`released`, `refunded` or `expired`) in a committed state is
never modified by any operation: every route guards on status `held`
(`disputed` for `resolve`), the sweep selects only held rows, and the
cascade candidate set contains only rows that were held at the start of
the transaction.  (Within a single `refund` transaction the cascade can
still act twice on the same dependent escrow — see the counterexample
theorem for the part of the claim this forced out.) -/
theorem c8_terminal_rows_immutable (S : Settings) (now : Int) (op : Op)
    (s : St) (i : Nat) (e : EscrowRec) (he : s.escrows[i]? = some e)
    (ht : TerminalStatus e.status) :
    (commit s (applyOp S now op s)).escrows[i]? = some e := by
  have hnh : e.status ≠ EStatus.held := by
    rcases ht with h | h | h <;> simp [h]
  have hnd : e.status ≠ EStatus.disputed := by
    rcases ht with h | h | h <;> simp [h]
  have hni : i ∉ snapHeldDeps s := by
    rw [mem_snapHeldDeps]
    rintro ⟨e2, he2, hst, _⟩
    rw [he] at he2
    injection he2 with he2
    subst he2
    exact hnh hst
  cases hres : applyOp S now op s with
  | error err => simpa [commit] using he
  | ok s2 =>
    simp only [commit]
    cases op with
    | register key limit =>
      simp only [applyOp, Except.ok.injEq] at hres
      subst hres
      simp only [registerOp]
      exact he
    | deposit c a =>
      simp only [applyOp] at hres
      unfold depositOp at hres
      split at hres
      · exact Except.noConfusion hres
      · split at hres
        next => exact Except.noConfusion hres
        next b hb =>
          simp only [Except.ok.injEq] at hres
          subst hres
          exact he
    | createEscrow c p a ttl tid deps =>
      simp only [applyOp] at hres
      have hrow := expireStale_preserve_row now s i e he hnh
      simp only [createEscrowOp] at hres
      cases hb : (expireStale now s).balances[c]? with
      | none =>
        simp only [hb] at hres
        repeat' split at hres
        all_goals exact Except.noConfusion hres
      | some b =>
        simp only [hb] at hres
        cases hsp : checkDailySpendLimit (expireStale now s) c
            (a + feeAmount S a) now with
        | some err =>
          simp only [hsp] at hres
          repeat' split at hres
          all_goals exact Except.noConfusion hres
        | none =>
          simp only [hsp] at hres
          cases hpa : (expireStale now s).accounts[p]? with
          | none =>
            simp only [hpa] at hres
            repeat' split at hres
            all_goals exact Except.noConfusion hres
          | some prov =>
            simp only [hpa] at hres
            repeat' split at hres
            all_goals try exact Except.noConfusion hres
            injection hres with hres
            subst hres
            dsimp only
            rw [List.getElem?_append_left (lt_of_getElem?_some hrow)]
            exact hrow
    | batchCreate c items =>
      simp only [applyOp] at hres
      have hrow := expireStale_preserve_row now s i e he hnh
      simp only [batchCreateOp] at hres
      cases hb : (expireStale now s).balances[c]? with
      | none =>
        simp only [hb] at hres
        repeat' split at hres
        all_goals exact Except.noConfusion hres
      | some b =>
        simp only [hb] at hres
        cases hsp : checkDailySpendLimit (expireStale now s) c
            ((items.map (fun it => it.amount + feeAmount S it.amount)).sum)
            now with
        | some err =>
          simp only [hsp] at hres
          repeat' split at hres
          all_goals exact Except.noConfusion hres
        | none =>
          simp only [hsp] at hres
          repeat' split at hres
          all_goals try exact Except.noConfusion hres
          exact batchItems_ok_preserve_row S now c _ items 0 _ s2 i e hres hrow
    | release c eid =>
      simp only [applyOp] at hres
      have hrow := expireStale_preserve_row now s i e he hnh
      simp only [releaseOp] at hres
      cases hee : (expireStale now s).escrows[eid]? with
      | none => simp only [hee] at hres; exact Except.noConfusion hres
      | some ee =>
        simp only [hee] at hres
        by_cases hq : ee.requesterId = c
        case neg => rw [if_pos hq] at hres; exact Except.noConfusion hres
        rw [if_neg (by simp [hq])] at hres
        by_cases hst : ee.status = EStatus.held
        case neg => rw [if_pos hst] at hres; exact Except.noConfusion hres
        rw [if_neg (by simp [hst])] at hres
        have hie : i ≠ eid := by
          intro hx
          subst hx
          rw [hrow] at hee
          injection hee with hee
          subst hee
          exact hnh hst
        by_cases hdp : unresolvedDeps (expireStale now s) ee.dependsOn = []
        case neg => rw [if_pos hdp] at hres; exact Except.noConfusion hres
        rw [if_neg (by simp [hdp])] at hres
        cases hrb : (expireStale now s).balances[ee.requesterId]? with
        | none =>
          cases hpb : (expireStale now s).balances[ee.providerId]? with
          | none =>
            simp only [hrb, hpb] at hres
            exact Except.noConfusion hres
          | some pb =>
            simp only [hrb, hpb] at hres
            exact Except.noConfusion hres
        | some rb =>
          cases hpb : (expireStale now s).balances[ee.providerId]? with
          | none =>
            simp only [hrb, hpb] at hres
            exact Except.noConfusion hres
          | some pb =>
            simp only [hrb, hpb] at hres
            injection hres with hres
            subst hres
            dsimp only
            rw [List.getElem?_set_ne (Ne.symm hie)]
            exact hrow
    | refund c eid =>
      simp only [applyOp] at hres
      have hrow := expireStale_preserve_row now s i e he hnh
      simp only [refundOp] at hres
      cases hee : (expireStale now s).escrows[eid]? with
      | none => simp only [hee] at hres; exact Except.noConfusion hres
      | some ee =>
        simp only [hee] at hres
        by_cases hq : ee.requesterId = c
        case neg => rw [if_pos hq] at hres; exact Except.noConfusion hres
        rw [if_neg (by simp [hq])] at hres
        by_cases hst : ee.status = EStatus.held
        case neg => rw [if_pos hst] at hres; exact Except.noConfusion hres
        rw [if_neg (by simp [hst])] at hres
        have hie : i ≠ eid := by
          intro hx
          subst hx
          rw [hrow] at hee
          injection hee with hee
          subst hee
          exact hnh hst
        cases hrb : (expireStale now s).balances[ee.requesterId]? with
        | none => simp only [hrb] at hres; exact Except.noConfusion hres
        | some rb =>
          simp only [hrb] at hres
          injection hres with hres
          subst hres
          apply cascade_preserve_row_notin s now _ _ _ _ _ hni
          dsimp only
          rw [List.getElem?_set_ne (Ne.symm hie)]
          exact hrow
    | dispute c eid reason =>
      simp only [applyOp] at hres
      simp only [disputeOp] at hres
      cases hee : s.escrows[eid]? with
      | none => simp only [hee] at hres; exact Except.noConfusion hres
      | some ee =>
        simp only [hee] at hres
        split at hres
        · exact Except.noConfusion hres
        · by_cases hst : ee.status = EStatus.held
          case neg => rw [if_pos hst] at hres; exact Except.noConfusion hres
          rw [if_neg (by simp [hst])] at hres
          have hie : i ≠ eid := by
            intro hx
            subst hx
            rw [he] at hee
            injection hee with hee
            subst hee
            exact hnh hst
          injection hres with hres
          subst hres
          dsimp only
          rw [List.getElem?_set_ne (Ne.symm hie)]
          exact he
    | resolve c eid toRel strat =>
      simp only [applyOp] at hres
      simp only [resolveOp] at hres
      cases hacc : s.accounts[c]? with
      | none => simp only [hacc] at hres; exact Except.noConfusion hres
      | some acct =>
        simp only [hacc] at hres
        split at hres
        · exact Except.noConfusion hres
        · cases hee : s.escrows[eid]? with
          | none => simp only [hee] at hres; exact Except.noConfusion hres
          | some ee =>
            simp only [hee] at hres
            by_cases hst : ee.status = EStatus.disputed
            case neg => rw [if_pos hst] at hres; exact Except.noConfusion hres
            rw [if_neg (by simp [hst])] at hres
            have hie : i ≠ eid := by
              intro hx
              subst hx
              rw [he] at hee
              injection hee with hee
              subst hee
              exact hnd hst
            cases toRel with
            | true =>
              simp only [show ((true : Bool) = true) = True from by simp,
                if_true] at hres
              cases hrb : s.balances[ee.requesterId]? with
              | none =>
                cases hpb : s.balances[ee.providerId]? with
                | none =>
                  simp only [hrb, hpb] at hres
                  exact Except.noConfusion hres
                | some pb =>
                  simp only [hrb, hpb] at hres
                  exact Except.noConfusion hres
              | some rb =>
                cases hpb : s.balances[ee.providerId]? with
                | none =>
                  simp only [hrb, hpb] at hres
                  exact Except.noConfusion hres
                | some pb =>
                  simp only [hrb, hpb] at hres
                  injection hres with hres
                  subst hres
                  dsimp only
                  rw [List.getElem?_set_ne (Ne.symm hie)]
                  exact he
            | false =>
              simp only [show ((false : Bool) = true) = False from by simp,
                if_false] at hres
              cases hrb : s.balances[ee.requesterId]? with
              | none => simp only [hrb] at hres; exact Except.noConfusion hres
              | some rb =>
                simp only [hrb] at hres
                injection hres with hres
                subst hres
                dsimp only
                rw [List.getElem?_set_ne (Ne.symm hie)]
                exact he
    | sweep =>
      simp only [applyOp, Except.ok.injEq] at hres
      subst hres
      exact expireStale_preserve_row now s i e he hnh

/-- State for the C8 witness: escrow 0 already refunded (terminal),
escrow 1 held. -/
def c8WitState : St :=
  runOps defaultS
    [(0, Op.register "ka" none), (0, Op.register "kb" none),
     (0, Op.createEscrow 0 1 10 none none []),
     (1, Op.refund 0 0),
     (2, Op.createEscrow 0 1 20 none (some "x") [])] St.init

/-- Witness for the amended C8: a later refund of escrow 1 leaves the
terminal escrow 0 untouched. -/
theorem c8_terminal_rows_immutable_witness :
    c8WitState.escrows[0]? =
      some ⟨0, 1, 10, 1, none, [], EStatus.refunded, none, none, none,
        30, 0, some 1⟩ ∧
    TerminalStatus EStatus.refunded ∧
    (commit c8WitState
        (applyOp defaultS 3 (Op.refund 0 1) c8WitState)).escrows[0]? =
      some ⟨0, 1, 10, 1, none, [], EStatus.refunded, none, none, none,
        30, 0, some 1⟩ :=
  ⟨by decide, by decide,
    c8_terminal_rows_immutable defaultS 3 (Op.refund 0 1) c8WitState 0
      ⟨0, 1, 10, 1, none, [], EStatus.refunded, none, none, none,
        30, 0, some 1⟩
      (by decide) (by decide)⟩

/-- Diamond dependency state for the C8 counterexample: escrow 0 held;
escrow 1 (amount 20) depends on 0; escrow 2 (amount 30) depends on 0
and 1. -/
def diamondC8 : St :=
  runOps defaultS
    [(0, Op.register "ka" none), (0, Op.register "kb" none),
     (0, Op.createEscrow 0 1 10 none none []),
     (0, Op.createEscrow 0 1 20 none (some "a") [0]),
     (0, Op.createEscrow 0 1 30 none (some "b") [0, 1])] St.init

/-- **C8 counterexample.**  Refunding escrow 0 of the diamond refunds
dependent escrow 2 *twice* (once for each dependency path): the outer
cascade loop re-processes it without re-checking its status after the
inner recursion has already refunded it.  Two `escrow_refund`
transactions for escrow 2 are recorded and the requester's
`held_in_escrow` is driven to −31 — the second mutation hits escrow 2
while its status is already the terminal `refunded`, so the claim that
no operation modifies a released/refunded/expired escrow is false at
this input. -/
theorem c8_counterexample_double_mutation :
    statusAt (commit diamondC8
        (applyOp defaultS 5 (Op.refund 0 0) diamondC8)) 2 =
      some EStatus.refunded ∧
    ((commit diamondC8
          (applyOp defaultS 5 (Op.refund 0 0) diamondC8)).txns.filter
        (fun t => decide (t.escrowId = some 2 ∧
          t.txType = TxType.escrowRefund))).length = 2 ∧
    heldAt (commit diamondC8
        (applyOp defaultS 5 (Op.refund 0 0) diamondC8)) 0 = -31 := by
  refine ⟨by decide, by decide, by decide⟩

/-! ### Claim C7: the refund cascade -/

/-- One reversed dependency edge of the cascade: `j` was held with a
non-empty `depends_on` at the start of the transaction and lists `u`. -/
def cascEdge (s0 : St) (u j : Nat) : Prop :=
  j ∈ snapHeldDeps s0 ∧ u ∈ depsOf s0 j

/-- Transitive dependents of `u` through the cascade candidate set. -/
inductive CascReach (s0 : St) : Nat → Nat → Prop where
  | direct {u j : Nat} : cascEdge s0 u j → CascReach s0 u j
  | step {u k j : Nat} : cascEdge s0 u k → CascReach s0 k j →
      CascReach s0 u j

/-- Every escrow's `depends_on` references strictly earlier escrows.
The API guarantees this: `create_escrow` only accepts ids of existing
escrows of the same requester, and batch items reference earlier batch
items or existing uuids. -/
def DepsWF (s : St) : Prop := ∀ j, ∀ d ∈ depsOf s j, d < j

/-- The cascade changes balances and statuses but never the table
shape: row counts and each escrow's requester survive. -/
def SameSkel (s0 s : St) : Prop :=
  s.balances.length = s0.balances.length ∧
  s.escrows.length = s0.escrows.length ∧
  ∀ j : Nat, (s.escrows[j]?).map EscrowRec.requesterId =
    (s0.escrows[j]?).map EscrowRec.requesterId

/-- Escrow `j` is marked refunded and has an `escrow_refund`
transaction on file. -/
def RefundedMark (j : Nat) (s : St) : Prop :=
  statusAt s j = some EStatus.refunded ∧
  ((s.escrows[j]?).map EscrowRec.resolvedAt).isSome ∧
  ∃ t ∈ s.txns, t.escrowId = some j ∧ t.txType = TxType.escrowRefund

theorem sameSkel_refl (s : St) : SameSkel s s := ⟨rfl, rfl, fun _ => rfl⟩

theorem sameSkel_refundRow (s0 : St) (st : EStatus) (now : Int) (i : Nat)
    (s : St) (h : SameSkel s0 s) : SameSkel s0 (refundRow st now i s) := by
  obtain ⟨hb, he, hr⟩ := h
  cases hei : s.escrows[i]? with
  | none => exact ⟨by simp [refundRow, hei, hb], by simp [refundRow, hei, he],
      by simpa [refundRow, hei] using hr⟩
  | some e =>
    cases hbi : s.balances[e.requesterId]? with
    | none => exact ⟨by simp [refundRow, hei, hbi, hb],
        by simp [refundRow, hei, hbi, he],
        by simpa [refundRow, hei, hbi] using hr⟩
    | some b =>
      refine ⟨?_, ?_, ?_⟩
      · simp [refundRow, hei, hbi, hb]
      · simp [refundRow, hei, hbi, he]
      · intro j
        simp only [refundRow, hei, hbi]
        by_cases hij : j = i
        · subst hij
          rw [List.getElem?_set_self (lt_of_getElem?_some hei), ← hr j, hei]
          rfl
        · rw [List.getElem?_set_ne (fun hx => hij hx.symm)]
          exact hr j

theorem sameSkel_cascade (s0 : St) (now : Int) :
    ∀ (f u : Nat) (s : St), SameSkel s0 s →
      SameSkel s0 (cascade s0 now f u s) := by
  intro f
  induction f with
  | zero => intro u s h; simpa [cascade] using h
  | succ fl ih =>
    intro u s h
    simp only [cascade]
    apply foldl_preserve _ _ _ _ h
    intro b j hb
    split
    · cases hej : b.escrows[j]? with
      | none => simpa [hej] using hb
      | some ej =>
        simp only [hej]
        cases hbj : b.balances[ej.requesterId]? with
        | none => simpa using hb
        | some _ =>
          simp only
          exact ih j _ (sameSkel_refundRow s0 _ now j b hb)
    · exact hb

theorem sameSkel_expireStale (now : Int) (s : St) :
    SameSkel s (expireStale now s) := by
  unfold expireStale
  refine foldl_preserve (P := SameSkel s) _ ?_ _ _ (sameSkel_refl s)
  intro b j hb
  cases hej : s.escrows[j]? with
  | none => simpa [hej] using hb
  | some ej =>
    simp only [hej]
    split
    · exact sameSkel_refundRow s _ now j b hb
    · exact hb

theorem refundedMark_refundRow (now : Int) (j i : Nat) (s : St)
    (h : RefundedMark j s) :
    RefundedMark j (refundRow EStatus.refunded now i s) := by
  obtain ⟨h1, h2, t, ht, hid, hty⟩ := h
  cases hei : s.escrows[i]? with
  | none => exact ⟨by simpa [refundRow, hei] using h1,
      by simpa [refundRow, hei] using h2,
      ⟨t, by simpa [refundRow, hei] using ht, hid, hty⟩⟩
  | some e =>
    cases hbi : s.balances[e.requesterId]? with
    | none => exact ⟨by simpa [refundRow, hei, hbi] using h1,
        by simpa [refundRow, hei, hbi] using h2,
        ⟨t, by simpa [refundRow, hei, hbi] using ht, hid, hty⟩⟩
    | some b =>
      refine ⟨?_, ?_, ⟨t, ?_, hid, hty⟩⟩
      · unfold statusAt at h1 ⊢
        simp only [refundRow, hei, hbi]
        by_cases hij : j = i
        · subst hij
          rw [List.getElem?_set_self (lt_of_getElem?_some hei)]
          rfl
        · rw [List.getElem?_set_ne (fun hx => hij hx.symm)]
          exact h1
      · simp only [refundRow, hei, hbi]
        by_cases hij : j = i
        · subst hij
          rw [List.getElem?_set_self (lt_of_getElem?_some hei)]
          rfl
        · rw [List.getElem?_set_ne (fun hx => hij hx.symm)]
          exact h2
      · simp only [refundRow, hei, hbi, List.mem_append]
        exact Or.inl ht

theorem refundedMark_cascade (s0 : St) (now : Int) :
    ∀ (f u j : Nat) (s : St), RefundedMark j s →
      RefundedMark j (cascade s0 now f u s) := by
  intro f
  induction f with
  | zero => intro u j s h; simpa [cascade] using h
  | succ fl ih =>
    intro u j s h
    simp only [cascade]
    apply foldl_preserve _ _ _ _ h
    intro b j2 hb
    split
    · cases hej : b.escrows[j2]? with
      | none => simpa [hej] using hb
      | some ej =>
        simp only [hej]
        cases hbj : b.balances[ej.requesterId]? with
        | none => simpa using hb
        | some _ =>
          simp only
          exact ih j2 j _ (refundedMark_refundRow now j j2 b hb)
    · exact hb

theorem skel_lookup (s0 smid : St) (hsk : SameSkel s0 smid)
    (hbal : ∀ e ∈ s0.escrows, e.requesterId < s0.balances.length)
    (j : Nat) (hj : j ∈ snapHeldDeps s0) :
    ∃ e b, smid.escrows[j]? = some e ∧
      smid.balances[e.requesterId]? = some b := by
  obtain ⟨e0, he0, _, _⟩ := (mem_snapHeldDeps s0 j).mp hj
  have hjlen : j < smid.escrows.length := by
    rw [hsk.2.1]
    exact lt_of_getElem?_some he0
  have hej : smid.escrows[j]? = some (smid.escrows.get ⟨j, hjlen⟩) := by
    rw [List.getElem?_eq_getElem hjlen]
    rfl
  have hreq : (smid.escrows.get ⟨j, hjlen⟩).requesterId = e0.requesterId := by
    have h3 := hsk.2.2 j
    rw [hej, he0] at h3
    simpa using h3
  have hblt : (smid.escrows.get ⟨j, hjlen⟩).requesterId <
      smid.balances.length := by
    rw [hreq, hsk.1]
    exact hbal e0 (List.getElem?_mem he0)
  refine ⟨smid.escrows.get ⟨j, hjlen⟩, smid.balances.get ⟨_, hblt⟩, hej, ?_⟩
  rw [List.getElem?_eq_getElem hblt]
  rfl

theorem refundRow_fires (s0 : St) (now : Int) (j : Nat) (s : St)
    (e : EscrowRec) (b : Bal)
    (hej : s.escrows[j]? = some e)
    (hbj : s.balances[e.requesterId]? = some b) :
    RefundedMark j (refundRow EStatus.refunded now j s) := by
  refine ⟨?_, ?_, ?_⟩
  · unfold statusAt
    simp only [refundRow, hej, hbj]
    rw [List.getElem?_set_self (lt_of_getElem?_some hej)]
    rfl
  · simp only [refundRow, hej, hbj]
    rw [List.getElem?_set_self (lt_of_getElem?_some hej)]
    rfl
  · simp only [refundRow, hej, hbj]
    exact ⟨_, List.mem_append.mpr (Or.inr (List.mem_singleton.mpr rfl)),
      rfl, rfl⟩

theorem cascade_body_skel (s0 : St) (now : Int) (f u : Nat) (b : St)
    (j2 : Nat) (hb : SameSkel s0 b) :
    SameSkel s0
      (if u ∈ depsOf s0 j2 then
        match b.escrows[j2]? with
        | none => b
        | some e =>
          match b.balances[e.requesterId]? with
          | none => b
          | some _ =>
            cascade s0 now f j2 (refundRow EStatus.refunded now j2 b)
      else b) := by
  split
  · cases hej : b.escrows[j2]? with
    | none => simpa [hej] using hb
    | some ej =>
      simp only [hej]
      cases hbj : b.balances[ej.requesterId]? with
      | none => simpa using hb
      | some _ =>
        simp only
        exact sameSkel_cascade s0 now f j2 _
          (sameSkel_refundRow s0 _ now j2 b hb)
  · exact hb

theorem cascade_body_mark (s0 : St) (now : Int) (f u j : Nat) (b : St)
    (j2 : Nat) (hb : RefundedMark j b) :
    RefundedMark j
      (if u ∈ depsOf s0 j2 then
        match b.escrows[j2]? with
        | none => b
        | some e =>
          match b.balances[e.requesterId]? with
          | none => b
          | some _ =>
            cascade s0 now f j2 (refundRow EStatus.refunded now j2 b)
      else b) := by
  split
  · cases hej : b.escrows[j2]? with
    | none => simpa [hej] using hb
    | some ej =>
      simp only [hej]
      cases hbj : b.balances[ej.requesterId]? with
      | none => simpa using hb
      | some _ =>
        simp only
        exact refundedMark_cascade s0 now f j2 j _
          (refundedMark_refundRow now j j2 b hb)
  · exact hb

theorem cascEdge_lt (s0 : St) (u j : Nat) (hwf : DepsWF s0)
    (h : cascEdge s0 u j) : u < j ∧ j < s0.escrows.length := by
  obtain ⟨hjs, hjd⟩ := h
  refine ⟨hwf j u hjd, ?_⟩
  obtain ⟨e0, he0, _, _⟩ := (mem_snapHeldDeps s0 j).mp hjs
  exact lt_of_getElem?_some he0

theorem cascade_covers (s0 : St) (now : Int)
    (hwf : DepsWF s0)
    (hbal : ∀ e ∈ s0.escrows, e.requesterId < s0.balances.length) :
    ∀ (f u : Nat) (s : St), SameSkel s0 s →
      s0.escrows.length ≤ f + u →
      ∀ j, CascReach s0 u j →
        RefundedMark j (cascade s0 now f u s) := by
  intro f
  induction f with
  | zero =>
    intro u s hsk hfuel j hreach
    exfalso
    cases hreach with
    | direct hedge =>
      obtain ⟨hlt, hjlen⟩ := cascEdge_lt s0 u _ hwf hedge
      omega
    | step hedge _ =>
      obtain ⟨hlt, hjlen⟩ := cascEdge_lt s0 u _ hwf hedge
      omega
  | succ fl ih =>
    intro u s hsk hfuel j hreach
    simp only [cascade]
    cases hreach with
    | direct hedge =>
      obtain ⟨hjsnap, hjdep⟩ := hedge
      obtain ⟨l1, l2, hsplit⟩ := List.append_of_mem hjsnap
      rw [hsplit, List.foldl_append, List.foldl_cons]
      have hskmid := foldl_preserve (P := SameSkel s0) _
        (fun b a hb => cascade_body_skel s0 now fl u b a hb) l1 s hsk
      obtain ⟨e, b, hej, hbj⟩ := skel_lookup s0 _ hskmid hbal j hjsnap
      simp only [if_pos hjdep, hej, hbj]
      refine foldl_preserve (P := RefundedMark j) _
        (fun b2 a hb2 => cascade_body_mark s0 now fl u j b2 a hb2) l2 _ ?_
      exact refundedMark_cascade s0 now fl j j _
        (refundRow_fires s0 now j _ e b hej hbj)
    | step hedgek hreachkj =>
      rename_i k
      obtain ⟨hksnap, hkdep⟩ := hedgek
      obtain ⟨l1, l2, hsplit⟩ := List.append_of_mem hksnap
      rw [hsplit, List.foldl_append, List.foldl_cons]
      have hskmid := foldl_preserve (P := SameSkel s0) _
        (fun b a hb => cascade_body_skel s0 now fl u b a hb) l1 s hsk
      obtain ⟨e, b, hek, hbk⟩ := skel_lookup s0 _ hskmid hbal k hksnap
      simp only [if_pos hkdep, hek, hbk]
      have hfuel2 : s0.escrows.length ≤ fl + k := by
        have huk : u < k := hwf k u hkdep
        omega
      refine foldl_preserve (P := RefundedMark j) _
        (fun b2 a hb2 => cascade_body_mark s0 now fl u j b2 a hb2) l2 _ ?_
      exact ih k _
        (sameSkel_refundRow s0 _ now k _ hskmid) hfuel2 j hreachkj

theorem foldl_ext {β α : Type} (f g : β → α → β) (l : List α)
    (h : ∀ b a, a ∈ l → f b a = g b a) :
    ∀ b, l.foldl f b = l.foldl g b := by
  induction l with
  | nil => intro b; rfl
  | cons a t ih =>
    intro b
    rw [List.foldl_cons, List.foldl_cons, h b a (List.mem_cons_self a t)]
    exact ih (fun b2 a2 ha2 => h b2 a2 (List.mem_cons_of_mem a ha2)) _

theorem depsOf_mem_lt (s0 : St) (u j : Nat) (hwf : DepsWF s0)
    (h : u ∈ depsOf s0 j) : u < j := hwf j u h

/-- When `upstream` is at or beyond the table, no row depends on it and
the cascade is the identity at every fuel. -/
theorem cascade_stuck (s0 : St) (now : Int) (hwf : DepsWF s0) :
    ∀ (f u : Nat) (s : St), s0.escrows.length ≤ u →
      cascade s0 now f u s = s := by
  intro f
  induction f with
  | zero => intro u s _; rfl
  | succ fl ih =>
    intro u s hu
    simp only [cascade]
    have hstep : ∀ (b : St) (j : Nat), j ∈ snapHeldDeps s0 →
        (if u ∈ depsOf s0 j then
          match b.escrows[j]? with
          | none => b
          | some e =>
            match b.balances[e.requesterId]? with
            | none => b
            | some _ =>
              cascade s0 now fl j (refundRow EStatus.refunded now j b)
        else b) = b := by
      intro b j hj
      rw [if_neg]
      intro hdep
      have h1 : u < j := hwf j u hdep
      obtain ⟨e0, he0, _, _⟩ := (mem_snapHeldDeps s0 j).mp hj
      have h2 : j < s0.escrows.length := lt_of_getElem?_some he0
      omega
    refine foldl_preserve_mem (P := fun x => x = s) _ _ ?_ _ rfl
    intro b j hj hb
    rw [hstep b j hj]
    exact hb

/-- Fuel irrelevance: any recursion-depth budget of at least
`escrows.length − upstream` computes the same cascade result, so the
depth-first recursion of `_auto_refund_dependents` terminates within
`escrows.length` nested calls on well-formed dependency graphs. -/
theorem cascade_fuel_irrelevant (s0 : St) (now : Int) (hwf : DepsWF s0) :
    ∀ (f1 f2 u : Nat) (s : St),
      s0.escrows.length ≤ f1 + u → s0.escrows.length ≤ f2 + u →
      cascade s0 now f1 u s = cascade s0 now f2 u s := by
  intro f1
  induction f1 with
  | zero =>
    intro f2 u s h1 h2
    rw [cascade_stuck s0 now hwf 0 u s (by omega),
      cascade_stuck s0 now hwf f2 u s (by omega)]
  | succ a ih =>
    intro f2 u s h1 h2
    by_cases hu : s0.escrows.length ≤ u
    · rw [cascade_stuck s0 now hwf _ u s hu, cascade_stuck s0 now hwf f2 u s hu]
    · push_neg at hu
      cases f2 with
      | zero => omega
      | succ b =>
        simp only [cascade]
        refine foldl_ext _ _ _ ?_ s
        intro x j hj
        by_cases hdep : u ∈ depsOf s0 j
        · rw [if_pos hdep, if_pos hdep]
          cases hej : x.escrows[j]? with
          | none => rfl
          | some e =>
            simp only
            cases hbj : x.balances[e.requesterId]? with
            | none => rfl
            | some _ =>
              simp only
              have hj2 : u < j := hwf j u hdep
              exact ih b j _ (by omega) (by omega)
        · rw [if_neg hdep, if_neg hdep]

theorem depsOf_ge_length (s : St) (j : Nat) (h : s.escrows.length ≤ j) :
    depsOf s j = [] := by
  unfold depsOf
  rw [List.getElem?_eq_none h]
  rfl

/-- `DepsWF` reduces to a bounded (decidable) check. -/
theorem depsWF_of_forall_lt (s : St)
    (h : ∀ j, j < s.escrows.length → ∀ d ∈ depsOf s j, d < j) : DepsWF s := by
  intro j d hd
  by_cases hj : j < s.escrows.length
  · exact h j hj d hd
  · rw [depsOf_ge_length s j (by omega)] at hd
    simp at hd

theorem sameSkel_update (s s1 : St) (eid : Nat) (e e2 : EscrowRec)
    (bs : List Bal) (ts : List Txn) (hsk : SameSkel s s1)
    (he : s1.escrows[eid]? = some e)
    (hreq : e2.requesterId = e.requesterId)
    (hblen : bs.length = s1.balances.length) :
    SameSkel s { s1 with balances := bs,
                         escrows := s1.escrows.set eid e2,
                         txns := ts } := by
  obtain ⟨hb, hel, hr⟩ := hsk
  refine ⟨?_, ?_, ?_⟩
  · show bs.length = s.balances.length
    exact hblen.trans hb
  · show (s1.escrows.set eid e2).length = s.escrows.length
    rw [List.length_set]
    exact hel
  · intro j
    show ((s1.escrows.set eid e2)[j]?).map EscrowRec.requesterId = _
    by_cases hje : j = eid
    · subst hje
      rw [List.getElem?_set_self (lt_of_getElem?_some he)]
      have h2 := hr j
      rw [he] at h2
      rw [← h2]
      simp [hreq]
    · rw [List.getElem?_set_ne (fun hx => hje hx.symm)]
      exact hr j

/-- **C7.**  When `refund` succeeds, the auto-refund cascade reaches
every escrow that transitively depends on the refunded one through the
held-with-dependencies candidate set: each such escrow ends the
transaction marked `refunded` with `resolved_at` set and an
`escrow_refund` transaction on file; and on states whose `depends_on`
lists reference strictly earlier escrows (all states the API can
create) the depth-first recursion is insensitive to any nesting budget
of at least the table size, i.e. it terminates.  (The claim's
per-dependent balance clause is corrected separately: the credit is
applied once per dependency path, see the counterexample.) -/
theorem c7_cascade_coverage (S : Settings) (now : Int)
    (caller eid : Nat) (s s2 : St)
    (hwf : DepsWF s)
    (hbal : ∀ e ∈ s.escrows, e.requesterId < s.balances.length)
    (hok : refundOp S now caller eid s = Except.ok s2) :
    (∀ j, CascReach s eid j → RefundedMark j s2) ∧
    (∀ f t, s.escrows.length ≤ f →
      cascade s now f eid t = cascade s now s.escrows.length eid t) := by
  refine ⟨?_, fun f t hf =>
    cascade_fuel_irrelevant s now hwf f s.escrows.length eid t
      (by omega) (by omega)⟩
  intro j hreach
  simp only [refundOp] at hok
  cases he : (expireStale now s).escrows[eid]? with
  | none => simp only [he] at hok; exact Except.noConfusion hok
  | some e =>
    simp only [he] at hok
    by_cases hq : e.requesterId = caller
    case neg => rw [if_pos hq] at hok; exact Except.noConfusion hok
    rw [if_neg (by simp [hq])] at hok
    by_cases hst : e.status = EStatus.held
    case neg => rw [if_pos hst] at hok; exact Except.noConfusion hok
    rw [if_neg (by simp [hst])] at hok
    cases hbq : (expireStale now s).balances[e.requesterId]? with
    | none => simp only [hbq] at hok; exact Except.noConfusion hok
    | some b =>
      simp only [hbq] at hok
      injection hok with hok
      subst hok
      refine cascade_covers s now hwf hbal s.escrows.length eid _ ?_
        (by omega) j hreach
      exact sameSkel_update s (expireStale now s) eid e _ _ _
        (sameSkel_expireStale now s) he rfl (by rw [List.length_set])

/-- Chain state for the C7 witness: escrow 1 depends on 0, escrow 2
depends on 1. -/
def chainC7 : St :=
  runOps defaultS
    [(0, Op.register "ka" none), (0, Op.register "kb" none),
     (0, Op.createEscrow 0 1 11 none none []),
     (0, Op.createEscrow 0 1 22 none (some "p") [0]),
     (0, Op.createEscrow 0 1 33 none (some "q") [1])] St.init

theorem c7_cascade_coverage_witness :
    DepsWF chainC7 ∧
    CascReach chainC7 0 2 ∧
    RefundedMark 2
      (commit chainC7 (applyOp defaultS 9 (Op.refund 0 0) chainC7)) :=
  ⟨depsWF_of_forall_lt chainC7 (by decide),
   CascReach.step (⟨by decide, by decide⟩ : cascEdge chainC7 0 1)
     (CascReach.direct (⟨by decide, by decide⟩ : cascEdge chainC7 1 2)),
   (c7_cascade_coverage defaultS 9 0 0 chainC7 _
      (depsWF_of_forall_lt chainC7 (by decide)) (by decide) rfl).1 2
     (CascReach.step (⟨by decide, by decide⟩ : cascEdge chainC7 0 1)
       (CascReach.direct (⟨by decide, by decide⟩ : cascEdge chainC7 1 2)))⟩

/-- Diamond dependency state for the C7 counterexample: escrow 0 held
(amount 11, fee 1); escrow 1 (amount 22, fee 1) depends on 0; escrow 2
(amount 33, fee 1) depends on 0 and on 1. -/
def diamondC7 : St :=
  runOps defaultS
    [(0, Op.register "ka" none), (0, Op.register "kb" none),
     (0, Op.createEscrow 0 1 11 none none []),
     (0, Op.createEscrow 0 1 22 none (some "a") [0]),
     (0, Op.createEscrow 0 1 33 none (some "b") [0, 1])] St.init

/-- **C7 counterexample.**  The claim says each cascaded dependent's
requester is credited *that escrow's amount+fee* and *an* (one)
`escrow_refund` transaction is recorded per refunded dependent.  On a
diamond graph the dependent reachable along two paths is processed once
per path: escrow 2 (amount+fee = 34) yields two `escrow_refund`
transactions, and the requester's available rises from 31 to 134, a
credit of 12 + 23 + 2·34 — escrow 2's total is paid twice. -/
theorem c7_counterexample_double_credit :
    (diamondC7.escrows[2]?).map (fun e => e.amount + e.feeAmount) =
      some 34 ∧
    availAt diamondC7 0 = 31 ∧
    availAt (commit diamondC7
        (applyOp defaultS 7 (Op.refund 0 0) diamondC7)) 0 = 134 ∧
    ((commit diamondC7
          (applyOp defaultS 7 (Op.refund 0 0) diamondC7)).txns.filter
        (fun t => decide (t.escrowId = some 2 ∧
          t.txType = TxType.escrowRefund))).length = 2 := by
  refine ⟨by decide, by decide, by decide, by decide⟩

/-! ### Claim C10: suspended accounts -/

/-- One iteration of the key-check loop of `authenticate_bot`
(auth.py): the current key hash, or the previous one when it exists and
was rotated less than the grace window ago.  `bcrypt.checkpw` is
abstracted to string equality (see the module comment). -/
def keyMatches (S : Settings) (now : Int) (key : String)
    (a : AccountRec) : Bool :=
  (a.apiKey == key) ||
  (match a.prevApiKey, a.keyRotatedAt with
   | some pk, some rt =>
     decide (now - rt < S.keyRotationGraceMinutes) && (pk == key)
   | _, _ => false)

/-- `authenticate_bot` (auth.py): scan the accounts whose status is not
`suspended` in id order and return the first whose current or
grace-window previous key matches; otherwise 401. -/
def authenticateBot (S : Settings) (now : Int) (key : String) (s : St) :
    Except ApiErr Nat :=
  match (List.range s.accounts.length).find? (fun i =>
      match s.accounts[i]? with
      | some a => !(decide (a.status = AStatus.suspended)) &&
          keyMatches S now key a
      | none => false) with
  | some i => .ok i
  | none => .error ⟨401, "INVALID_API_KEY"⟩

/-- Every settlement route takes `Depends(authenticate_bot)`: the
dependency runs first and a 401 aborts the request before the handler
touches any row. -/
def withAuth (S : Settings) (now : Int) (key : String) (s : St)
    (handler : Nat → St → Except ApiErr St) : Except ApiErr St :=
  match authenticateBot S now key s with
  | .error e => .error e
  | .ok caller => handler caller s

/-- Replace the `accounts` table, keeping balances, escrows and
transactions. -/
def setAccounts (ac : List AccountRec) (s : St) : St :=
  { s with accounts := ac }

theorem refundRow_setAccounts (ac : List AccountRec) (st : EStatus)
    (now : Int) (i : Nat) (s : St) :
    refundRow st now i (setAccounts ac s) =
      setAccounts ac (refundRow st now i s) := by
  unfold refundRow setAccounts
  dsimp only
  cases he : s.escrows[i]? with
  | none => rfl
  | some e =>
    dsimp only
    cases hb : s.balances[e.requesterId]? with
    | none => rfl
    | some b => rfl

theorem foldl_setAccounts (ac : List AccountRec) (g : St → Nat → St)
    (hg : ∀ b i, g (setAccounts ac b) i = setAccounts ac (g b i)) :
    ∀ (l : List Nat) (b : St),
      l.foldl g (setAccounts ac b) = setAccounts ac (l.foldl g b) := by
  intro l
  induction l with
  | nil => intro b; rfl
  | cons a t ih =>
    intro b
    rw [List.foldl_cons, List.foldl_cons, hg, ih]

theorem expireStale_setAccounts (ac : List AccountRec) (now : Int)
    (s : St) :
    expireStale now (setAccounts ac s) =
      setAccounts ac (expireStale now s) := by
  unfold expireStale
  refine foldl_setAccounts ac _ ?_ _ s
  intro b i
  rw [show (setAccounts ac s).escrows = s.escrows from rfl]
  cases he : s.escrows[i]? with
  | none => rfl
  | some e =>
    dsimp only
    by_cases hc : e.status = EStatus.held ∧ e.expiresAt < now
    · rw [if_pos hc, if_pos hc]
      exact refundRow_setAccounts ac EStatus.expired now i b
    · rw [if_neg hc, if_neg hc]

/-- `release` reads and writes only escrow and balance rows, so the
account table — in particular any provider's `status` — neither blocks
it nor is changed by it (the source also nudges `provider.reputation`,
which this embedding omits, see the module comment). -/
theorem releaseOp_setAccounts (S : Settings) (now : Int)
    (caller eid : Nat) (ac : List AccountRec) (s : St) :
    releaseOp S now caller eid (setAccounts ac s) =
      Except.map (setAccounts ac) (releaseOp S now caller eid s) := by
  simp only [releaseOp]
  rw [expireStale_setAccounts ac now s]
  rw [show (setAccounts ac (expireStale now s)).escrows =
    (expireStale now s).escrows from rfl]
  rw [show unresolvedDeps (setAccounts ac (expireStale now s)) =
    unresolvedDeps (expireStale now s) from rfl]
  rw [show (setAccounts ac (expireStale now s)).balances =
    (expireStale now s).balances from rfl]
  rw [show (setAccounts ac (expireStale now s)).txns =
    (expireStale now s).txns from rfl]
  cases he : (expireStale now s).escrows[eid]? with
  | none => rfl
  | some e =>
    dsimp only
    by_cases hq : e.requesterId = caller
    case neg => rw [if_pos hq, if_pos hq]; rfl
    have hq2 : ¬(e.requesterId ≠ caller) := by simp [hq]
    rw [if_neg hq2, if_neg hq2]
    by_cases hst : e.status = EStatus.held
    case neg => rw [if_pos hst, if_pos hst]; rfl
    have hst2 : ¬(e.status ≠ EStatus.held) := by simp [hst]
    rw [if_neg hst2, if_neg hst2]
    by_cases hdep : unresolvedDeps (expireStale now s) e.dependsOn = []
    case neg => rw [if_pos hdep, if_pos hdep]; rfl
    have hdep2 : ¬(unresolvedDeps (expireStale now s) e.dependsOn ≠ []) := by
      simp [hdep]
    rw [if_neg hdep2, if_neg hdep2]
    cases hb1 : (expireStale now s).balances[e.requesterId]? with
    | none =>
      cases hb2 : (expireStale now s).balances[e.providerId]? with
      | none => rfl
      | some b2 => rfl
    | some b1 =>
      cases hb2 : (expireStale now s).balances[e.providerId]? with
      | none => rfl
      | some b2 => rfl

/-- **C10.**  A request presenting an API key that matches only
suspended accounts (in particular, the key of a suspended account,
first hypothesis) is rejected with 401 by `authenticate_bot` before any
handler runs, for *every* authenticated endpoint — release, refund and
deposit included — and so changes no state; yet `release` is oblivious
to the account table, so a suspended account is still credited as
provider when another party releases: replacing the account rows (e.g.
suspending the provider) neither blocks a succeeding release nor
changes its result beyond those rows. -/
theorem c10_suspended_lockout (S : Settings) (now : Int) (key : String)
    (s : St)
    (hsusp : ∃ a ∈ s.accounts, a.status = AStatus.suspended ∧
      keyMatches S now key a = true)
    (honly : s.accounts.all (fun a =>
      decide (a.status = AStatus.suspended) ||
        !(keyMatches S now key a)) = true) :
    (∀ handler : Nat → St → Except ApiErr St,
      withAuth S now key s handler =
        Except.error ⟨401, "INVALID_API_KEY"⟩) ∧
    (∀ (t : St) (caller eid : Nat) (ac : List AccountRec) (t2 : St),
      releaseOp S now caller eid t = Except.ok t2 →
      releaseOp S now caller eid (setAccounts ac t) =
        Except.ok (setAccounts ac t2)) := by
  constructor
  · intro handler
    have hnone : (List.range s.accounts.length).find? (fun i =>
        match s.accounts[i]? with
        | some a => !(decide (a.status = AStatus.suspended)) &&
            keyMatches S now key a
        | none => false) = none := by
      rw [List.find?_eq_none]
      intro i hi
      cases ha : s.accounts[i]? with
      | none => simp
      | some a =>
        simp only [ha]
        have hmem := List.getElem?_mem ha
        have h2 := List.all_eq_true.mp honly a hmem
        cases hsus : decide (a.status = AStatus.suspended) with
        | true => simp
        | false =>
          simp only [hsus] at h2 ⊢
          simpa using h2
    unfold withAuth authenticateBot
    rw [hnone]
  · intro t caller eid ac t2 hok
    rw [releaseOp_setAccounts, hok]
    rfl

/-- All-active base state for the C10 witness: escrow 0 (amount 40)
from account 0 to provider account 1. -/
def c10Base : St :=
  runOps defaultS
    [(0, Op.register "ka" none), (0, Op.register "kb" none),
     (0, Op.createEscrow 0 1 40 none none [])] St.init

/-- The same account rows with the provider (account 1) suspended. -/
def c10SuspAcc : List AccountRec :=
  [⟨AStatus.active, "ka", none, none, none⟩,
   ⟨AStatus.suspended, "kb", none, none, none⟩]

def c10State : St := setAccounts c10SuspAcc c10Base

theorem c10_suspended_lockout_witness :
    withAuth defaultS 9 "kb" c10State
        (fun c st => depositOp 9 c 5 st) =
      Except.error ⟨401, "INVALID_API_KEY"⟩ ∧
    releaseOp defaultS 9 0 0 c10State =
      Except.ok (setAccounts c10SuspAcc
        (commit c10Base (applyOp defaultS 9 (Op.release 0 0) c10Base))) ∧
    availAt (setAccounts c10SuspAcc
        (commit c10Base (applyOp defaultS 9 (Op.release 0 0) c10Base))) 1 =
      availAt c10State 1 + 40 := by
  refine ⟨?_, ?_, by decide⟩
  · exact (c10_suspended_lockout defaultS 9 "kb" c10State
      (by decide) (by decide)).1 _
  · exact (c10_suspended_lockout defaultS 9 "kb" c10State
      (by decide) (by decide)).2 c10Base 0 0 c10SuspAcc _ rfl

/-! ### Claim C3: the idempotency middleware -/

/-- Row of the `idempotency_records` table. -/
structure IdemRecord where
  key : String
  requestHash : String
  responseBody : String
  statusCode : Nat
  expiresAt : Int
deriving DecidableEq

/-- An HTTP response as the middleware sees it: status code and body
bytes. -/
structure HttpResp where
  status : Nat
  body : String
deriving DecidableEq

/-- The opportunistic `DELETE ... WHERE expires_at < now` run before
every keyed lookup. -/
def cleanupExpired (now : Int) (tbl : List IdemRecord) : List IdemRecord :=
  tbl.filter (fun r => !(decide (r.expiresAt < now)))

/-- `SELECT ... WHERE key == idem_key` (`scalar_one_or_none`; keys are
unique, the first match is the row). -/
def lookupKey (k : String) (tbl : List IdemRecord) : Option IdemRecord :=
  tbl.find? (fun r => r.key == k)

/-- `IdempotencyMiddleware.dispatch` (middleware.py).  `sha` stands for
`hashlib.sha256(body).hexdigest()`; `handler` is `call_next`; the third
component records whether the wrapped operation was executed.  The 409
body is abbreviated to its error code `IDEMPOTENCY_CONFLICT`.  Time is
in minutes, so the 24-hour expiry is `now + 1440`. -/
def idemDispatch (sha : String → String) (now : Int) (method : String)
    (idemKey : Option String) (body : String) (handler : Unit → HttpResp)
    (tbl : List IdemRecord) : HttpResp × List IdemRecord × Bool :=
  if method ≠ "POST" then (handler (), tbl, true)
  else
    match idemKey with
    | none => (handler (), tbl, true)
    | some key =>
      let bodyHash := sha body
      let tbl1 := cleanupExpired now tbl
      match lookupKey key tbl1 with
      | some r =>
        if r.requestHash ≠ bodyHash then
          (⟨409, "IDEMPOTENCY_CONFLICT"⟩, tbl1, false)
        else
          (⟨r.statusCode, r.responseBody⟩, tbl1, false)
      | none =>
        let resp := handler ()
        if 200 ≤ resp.status ∧ resp.status < 300 then
          (resp, tbl1 ++ [⟨key, bodyHash, resp.body, resp.status, now + 1440⟩],
            true)
        else (resp, tbl1, true)

theorem find?_append_none {α : Type} (p : α → Bool) (l2 : List α) :
    ∀ l1 : List α, l1.find? p = none → (l1 ++ l2).find? p = l2.find? p := by
  intro l1
  induction l1 with
  | nil => intro _; rfl
  | cons a t ih =>
    intro h
    by_cases hpa : p a = true
    · rw [List.find?_cons_of_pos t hpa] at h
      exact Option.noConfusion h
    · rw [List.find?_cons_of_neg t hpa] at h
      rw [List.cons_append, List.find?_cons_of_neg _ hpa]
      exact ih h

/-- **C3.**  For a POST carrying idempotency key `k`: a fresh key
executes the handler and persists the 2xx response under `k` with
expiry now+24h (first conjunct) and only a 2xx response is persisted
(fourth conjunct); a later request with the same key and an equal body
hash gets the stored status and byte-identical stored body back without
its handler running (second conjunct, note `handler2` is arbitrary and
the executed flag is `false`); a differing body hash gets 409
IDEMPOTENCY_CONFLICT without execution (third conjunct); and the
lookup first deletes exactly the expired records (fifth conjunct). -/
theorem c3_idempotency_middleware (sha : String → String) (now now2 : Int)
    (k body body2 : String) (handler handler2 : Unit → HttpResp)
    (tbl : List IdemRecord)
    (hfree : lookupKey k (cleanupExpired now tbl) = none)
    (h2xx : 200 ≤ (handler ()).status ∧ (handler ()).status < 300)
    (hfresh : ¬ (now + 1440 < now2)) :
    idemDispatch sha now "POST" (some k) body handler tbl =
      (handler (), cleanupExpired now tbl ++
        [⟨k, sha body, (handler ()).body, (handler ()).status, now + 1440⟩],
        true) ∧
    (sha body2 = sha body →
      idemDispatch sha now2 "POST" (some k) body2 handler2
          (cleanupExpired now tbl ++
            [⟨k, sha body, (handler ()).body, (handler ()).status,
              now + 1440⟩]) =
        (⟨(handler ()).status, (handler ()).body⟩,
         cleanupExpired now2 (cleanupExpired now tbl) ++
           [⟨k, sha body, (handler ()).body, (handler ()).status,
             now + 1440⟩],
         false)) ∧
    (sha body2 ≠ sha body →
      idemDispatch sha now2 "POST" (some k) body2 handler2
          (cleanupExpired now tbl ++
            [⟨k, sha body, (handler ()).body, (handler ()).status,
              now + 1440⟩]) =
        (⟨409, "IDEMPOTENCY_CONFLICT"⟩,
         cleanupExpired now2 (cleanupExpired now tbl) ++
           [⟨k, sha body, (handler ()).body, (handler ()).status,
             now + 1440⟩],
         false)) ∧
    (∀ handler3 : Unit → HttpResp,
      ¬ (200 ≤ (handler3 ()).status ∧ (handler3 ()).status < 300) →
      idemDispatch sha now "POST" (some k) body handler3 tbl =
        (handler3 (), cleanupExpired now tbl, true)) ∧
    (∀ r ∈ tbl, (r ∈ cleanupExpired now tbl ↔ ¬ r.expiresAt < now)) := by
  have hpost : ¬ (("POST" : String) ≠ "POST") := fun h => h rfl
  have htbl1 : cleanupExpired now2 (cleanupExpired now tbl ++
      [⟨k, sha body, (handler ()).body, (handler ()).status, now + 1440⟩]) =
      cleanupExpired now2 (cleanupExpired now tbl) ++
        [⟨k, sha body, (handler ()).body, (handler ()).status, now + 1440⟩] := by
    unfold cleanupExpired
    rw [List.filter_append]
    simp [hfresh]
  have hlook : lookupKey k
      (cleanupExpired now2 (cleanupExpired now tbl) ++
        [⟨k, sha body, (handler ()).body, (handler ()).status, now + 1440⟩]) =
      some ⟨k, sha body, (handler ()).body, (handler ()).status,
        now + 1440⟩ := by
    unfold lookupKey
    rw [find?_append_none]
    · simp
    · rw [List.find?_eq_none]
      intro r hr
      have hr2 : r ∈ cleanupExpired now tbl :=
        (List.mem_filter.mp hr).1
      have h3 := List.find?_eq_none.mp hfree r hr2
      simpa using h3
  refine ⟨?_, ?_, ?_, ?_, ?_⟩
  · simp only [idemDispatch]
    rw [if_neg hpost, hfree]
    dsimp only
    rw [if_pos h2xx]
  · intro hsha
    simp only [idemDispatch]
    rw [if_neg hpost, htbl1, hlook]
    dsimp only
    rw [if_neg (show ¬ (sha body ≠ sha body2) from by simp [hsha])]
  · intro hsha
    simp only [idemDispatch]
    rw [if_neg hpost, htbl1, hlook]
    dsimp only
    rw [if_pos (show sha body ≠ sha body2 from fun h => hsha h.symm)]
  · intro handler3 hnot
    simp only [idemDispatch]
    rw [if_neg hpost, hfree]
    dsimp only
    rw [if_neg hnot]
  · intro r hr
    simp [cleanupExpired, List.mem_filter, hr]

/-- Concrete hash for the C3 witness. -/
def c3sha (b : String) : String := "h" ++ b

def c3handler : Unit → HttpResp := fun _ => ⟨201, "created"⟩

def c3handler2 : Unit → HttpResp := fun _ => ⟨500, "boom"⟩

/-- One stale record, expired before time 0. -/
def c3tbl : List IdemRecord := [⟨"old", "hz", "gone", 200, -5⟩]

theorem c3_idempotency_middleware_witness :
    idemDispatch c3sha 0 "POST" (some "K") "x" c3handler c3tbl =
      (⟨201, "created"⟩, [⟨"K", "hx", "created", 201, 1440⟩], true) ∧
    idemDispatch c3sha 100 "POST" (some "K") "x" c3handler2
        [⟨"K", "hx", "created", 201, 1440⟩] =
      (⟨201, "created"⟩, [⟨"K", "hx", "created", 201, 1440⟩], false) ∧
    idemDispatch c3sha 100 "POST" (some "K") "y" c3handler2
        [⟨"K", "hx", "created", 201, 1440⟩] =
      (⟨409, "IDEMPOTENCY_CONFLICT"⟩,
        [⟨"K", "hx", "created", 201, 1440⟩], false) ∧
    idemDispatch c3sha 0 "POST" (some "K") "x" c3handler2 c3tbl =
      (⟨500, "boom"⟩, [], true) := by
  refine ⟨?_, ?_, ?_, ?_⟩
  · exact (c3_idempotency_middleware c3sha 0 100 "K" "x" "x" c3handler
      c3handler2 c3tbl (by decide) (by decide) (by decide)).1
  · exact (c3_idempotency_middleware c3sha 0 100 "K" "x" "x" c3handler
      c3handler2 c3tbl (by decide) (by decide) (by decide)).2.1 rfl
  · exact (c3_idempotency_middleware c3sha 0 100 "K" "x" "y" c3handler
      c3handler2 c3tbl (by decide) (by decide) (by decide)).2.2.1 (by decide)
  · exact (c3_idempotency_middleware c3sha 0 100 "K" "x" "x" c3handler
      c3handler2 c3tbl (by decide) (by decide) (by decide)).2.2.2.1
      c3handler2 (by decide)

/-! ### Claim C4: the compliance Merkle tree

`compliance/merkle.py` keeps leaves and internal nodes in two SQLite
tables.  The embedding abstracts SHA-256 as an arbitrary function
`sha : String → String` (every statement is proved for all `sha`) and
models byte strings as `String`, with the domain-separation prefixes
`\x00`/`\x01` and hex-decoding folded into string concatenation.  The
node table is a function `Nat → Nat → Option String`; `_get_node`
raises on a missing row, so lookups use a default that the table
invariant proves unreachable on trees built by `append`. -/

def hashLeaf (sha : String → String) (d : String) : String :=
  sha ("\x00" ++ d)

def hashNode (sha : String → String) (l r : String) : String :=
  sha ("\x01" ++ l ++ r)

/-- `EMPTY_ROOT = "0" * 64`. -/
def emptyRoot : String :=
  "0000000000000000000000000000000000000000000000000000000000000000"

/-- `INSERT OR REPLACE INTO merkle_nodes`. -/
def storeNode (tbl : Nat → Nat → Option String) (l p : Nat) (h : String) :
    Nat → Nat → Option String :=
  fun l2 p2 => if l2 = l ∧ p2 = p then some h else tbl l2 p2

/-- In-memory image of the two tables: `leaves` is the `data_hash`
column in position order, `nodes` the `(level, position) → hash` map. -/
structure MTree where
  leaves : List String
  nodes : Nat → Nat → Option String

/-- Number of nodes at level `l` of a tree with `n` leaves (the `n`
variable of the `while n > 1` loops: halved rounding up at each
level). -/
def levelSize (n : Nat) : Nat → Nat
  | 0 => n
  | l + 1 => (levelSize n l + 1) / 2

/-- The level of the root: how often `n = (n + 1) // 2` runs until
`n ≤ 1` (`_compute_root`). -/
def levels (n : Nat) : Nat :=
  if h : n ≤ 1 then 0 else levels ((n + 1) / 2) + 1
termination_by n
decreasing_by omega

/-- `_rebuild_path` (merkle.py): recompute the internal nodes along the
path from `pos` at `level` to the root, with the last odd node
duplicated (`right_hash = left_hash`). -/
def rebuildPath (sha : String → String) (tbl : Nat → Nat → Option String)
    (level pos n : Nat) : Nat → Nat → Option String :=
  if h : n ≤ 1 then tbl
  else
    let parentPos := pos / 2
    let leftPos := parentPos * 2
    let rightPos := leftPos + 1
    let leftHash := (tbl level leftPos).getD ""
    let rightHash :=
      if rightPos < n then (tbl level rightPos).getD "" else leftHash
    rebuildPath sha
      (storeNode tbl (level + 1) parentPos (hashNode sha leftHash rightHash))
      (level + 1) parentPos ((n + 1) / 2)
termination_by n
decreasing_by omega

/-- `append` (merkle.py): store the domain-separated leaf hash at
`(0, position)`, append the leaf row, rebuild the path to the root. -/
def appendLeaf (sha : String → String) (t : MTree) (d : String) : MTree :=
  let leafHash := hashLeaf sha d
  let pos := t.leaves.length
  ⟨t.leaves ++ [leafHash],
   rebuildPath sha (storeNode t.nodes 0 pos leafHash) 0 pos (pos + 1)⟩

/-- A tree built by a sequence of `append` calls on a fresh database. -/
def buildTree (sha : String → String) (ds : List String) : MTree :=
  ds.foldl (appendLeaf sha) ⟨[], fun _ _ => none⟩

/-- `get_proof` (merkle.py): `(sibling_hash, side)` pairs bottom-up;
`side = true` renders `"left"` (odd position), the out-of-range sibling
of a last odd node is the node itself.  A missing node row
(`_get_node` raising) yields `none`. -/
def getProofAux (tbl : Nat → Nat → Option String) (level pos n : Nat) :
    Option (List (String × Bool)) :=
  if h : n ≤ 1 then some []
  else
    let sibPos := if pos % 2 = 0 then pos + 1 else pos - 1
    let lookupPos := if sibPos < n then sibPos else pos
    match tbl level lookupPos with
    | none => none
    | some sh =>
      match getProofAux tbl (level + 1) (pos / 2) ((n + 1) / 2) with
      | none => none
      | some rest => some ((sh, decide (pos % 2 = 1)) :: rest)
termination_by n
decreasing_by omega

def getProof (t : MTree) (i : Nat) : Option (List (String × Bool)) :=
  if i < t.leaves.length then getProofAux t.nodes 0 i t.leaves.length
  else none

/-- The `root` property: the 64-zero sentinel on an empty tree, else
the stored node at `(levels count, 0)`. -/
def rootHash (t : MTree) : Option String :=
  if t.leaves.length = 0 then some emptyRoot
  else t.nodes (levels t.leaves.length) 0

/-- The fold of `verify`: `hash(sibling, acc)` when the sibling is on
the left, `hash(acc, sibling)` when on the right. -/
def foldProof (sha : String → String) (prf : List (String × Bool))
    (start : String) : String :=
  prf.foldl (fun acc sb =>
    if sb.2 then hashNode sha sb.1 acc else hashNode sha acc sb.1) start

/-- `verify` (merkle.py). -/
def verify (sha : String → String) (t : MTree) (i : Nat)
    (dataHash : String) : Bool :=
  match t.leaves[i]? with
  | none => false
  | some h =>
    if h ≠ dataHash then false
    else
      match getProof t i, rootHash t with
      | some prf, some r => foldProof sha prf dataHash == r
      | _, _ => false

/-- The intended value of the node at `(level, position)` for leaf
hashes `hs`: leaf hashes at level 0, domain-separated parent hashes
above, the last odd node duplicated. -/
def specHash (sha : String → String) (hs : List String) :
    Nat → Nat → String
  | 0, p => hs.getD p ""
  | l + 1, p =>
    let lh := specHash sha hs l (2 * p)
    if 2 * p + 1 < levelSize hs.length l then
      hashNode sha lh (specHash sha hs l (2 * p + 1))
    else hashNode sha lh lh

/-- Node-table invariant: every in-range node row holds its intended
hash. -/
def TblOk (sha : String → String) (hs : List String)
    (tbl : Nat → Nat → Option String) : Prop :=
  ∀ l p, l ≤ levels hs.length → p < levelSize hs.length l →
    tbl l p = some (specHash sha hs l p)

theorem levelSize_pos (n : Nat) (hn : 1 ≤ n) : ∀ l, 1 ≤ levelSize n l := by
  intro l
  induction l with
  | zero => exact hn
  | succ l ih =>
    show 1 ≤ (levelSize n l + 1) / 2
    omega

theorem levelSize_shift (n : Nat) :
    ∀ l, levelSize n (l + 1) = levelSize ((n + 1) / 2) l := by
  intro l
  induction l with
  | zero => rfl
  | succ l ih =>
    show (levelSize n (l + 1) + 1) / 2 = (levelSize ((n + 1) / 2) l + 1) / 2
    rw [ih]

theorem levelSize_levels : ∀ n, 1 ≤ n → levelSize n (levels n) = 1 := by
  intro n
  induction n using Nat.strong_induction_on with
  | _ n ih =>
    intro hn
    by_cases h1 : n ≤ 1
    · have h2 : n = 1 := by omega
      subst h2
      rw [levels]
      rfl
    · rw [levels, dif_neg h1, levelSize_shift]
      exact ih ((n + 1) / 2) (by omega) (by omega)

theorem levelSize_ge_two : ∀ n l, l < levels n → 2 ≤ levelSize n l := by
  intro n
  induction n using Nat.strong_induction_on with
  | _ n ih =>
    intro l hl
    by_cases h1 : n ≤ 1
    · rw [levels, dif_pos h1] at hl
      omega
    · rw [levels, dif_neg h1] at hl
      cases l with
      | zero => show 2 ≤ n; omega
      | succ l2 =>
        rw [levelSize_shift]
        exact ih ((n + 1) / 2) (by omega) l2 (by omega)

theorem levels_le (n l : Nat) (h : levelSize n l ≤ 1) : levels n ≤ l := by
  by_contra h2
  push_neg at h2
  have h3 := levelSize_ge_two n l h2
  omega

/-- Sizes after appending one leaf: the level-`l` node count of `n+1`
leaves is `n / 2^l + 1` (the new last node is the ancestor of the new
leaf), and the old count is that or one less. -/
theorem ancSize (n : Nat) : ∀ l, levelSize (n + 1) l = n / 2 ^ l + 1 ∧
    (levelSize n l = n / 2 ^ l ∨ levelSize n l = n / 2 ^ l + 1) := by
  intro l
  induction l with
  | zero =>
    constructor
    · show n + 1 = n / 2 ^ 0 + 1
      simp
    · left
      show n = n / 2 ^ 0
      simp
  | succ l ih =>
    obtain ⟨h1, h2⟩ := ih
    have hdiv : n / 2 ^ (l + 1) = n / 2 ^ l / 2 := by
      rw [Nat.div_div_eq_div_mul, pow_succ]
    constructor
    · show (levelSize (n + 1) l + 1) / 2 = n / 2 ^ (l + 1) + 1
      rw [h1, hdiv]
      omega
    · show (levelSize n l + 1) / 2 = n / 2 ^ (l + 1) ∨
        (levelSize n l + 1) / 2 = n / 2 ^ (l + 1) + 1
      rw [hdiv]
      rcases h2 with h2 | h2 <;> rw [h2] <;> omega

/-- Appending a leaf does not change the intended hash of any in-range
node that is not an ancestor of the new position. -/
theorem specHash_append_ne (sha : String → String) (hs : List String)
    (x : String) :
    ∀ l p, p < levelSize hs.length l → p ≠ hs.length / 2 ^ l →
      specHash sha (hs ++ [x]) l p = specHash sha hs l p := by
  intro l
  induction l with
  | zero =>
    intro p hp hne
    show (hs ++ [x]).getD p "" = hs.getD p ""
    have hp2 : p < hs.length := hp
    rw [List.getD_eq_getElem?_getD, List.getD_eq_getElem?_getD,
      List.getElem?_append_left hp2]
  | succ l ih =>
    intro p hp hne
    obtain ⟨hsz1, hsz2⟩ := ancSize hs.length l
    have hlen2 : (hs ++ [x]).length = hs.length + 1 := by simp
    have hdd : hs.length / 2 ^ (l + 1) = hs.length / 2 ^ l / 2 := by
      rw [Nat.div_div_eq_div_mul, pow_succ]
    have hs2def : levelSize hs.length (l + 1) =
        (levelSize hs.length l + 1) / 2 := rfl
    have hl2p : specHash sha (hs ++ [x]) l (2 * p) =
        specHash sha hs l (2 * p) := by
      refine ih (2 * p) (by omega) (by omega)
    simp only [specHash, hlen2]
    by_cases hco : 2 * p + 1 < levelSize hs.length l
    · have hcn : 2 * p + 1 < levelSize (hs.length + 1) l := by omega
      rw [if_pos hco, if_pos hcn, hl2p,
        ih (2 * p + 1) (by omega) (by omega)]
    · by_cases hcn : 2 * p + 1 < levelSize (hs.length + 1) l
      · exfalso
        omega
      · rw [if_neg hco, if_neg hcn, hl2p]
theorem levelSize_after : ∀ n l, levels n ≤ l → levelSize n l ≤ 1 := by
  intro n l
  induction l with
  | zero =>
    intro h
    by_cases h1 : n ≤ 1
    · exact h1
    · rw [levels, dif_neg h1] at h
      omega
  | succ l ih =>
    intro h
    by_cases h2 : levels n ≤ l
    · have h3 := ih h2
      show (levelSize n l + 1) / 2 ≤ 1
      omega
    · have h4 : levels n = l + 1 := by omega
      by_cases h5 : 1 ≤ n
      · rw [← h4, levelSize_levels n h5]
      · have h6 : n = 0 := by omega
        subst h6
        have h7 : ∀ l2, levelSize 0 l2 = 0 := by
          intro l2
          induction l2 with
          | zero => rfl
          | succ l3 ih3 => show (levelSize 0 l3 + 1) / 2 = 0; omega
        rw [h7]
        omega

theorem le_mul_levelSize (n : Nat) : ∀ l, n ≤ levelSize n l * 2 ^ l := by
  intro l
  induction l with
  | zero => show n ≤ n * 1; omega
  | succ l ih =>
    show n ≤ (levelSize n l + 1) / 2 * 2 ^ (l + 1)
    have h1 : levelSize n l ≤ (levelSize n l + 1) / 2 * 2 := by omega
    calc n ≤ levelSize n l * 2 ^ l := ih
      _ ≤ (levelSize n l + 1) / 2 * 2 * 2 ^ l :=
          Nat.mul_le_mul_right _ h1
      _ = (levelSize n l + 1) / 2 * 2 ^ (l + 1) := by ring

theorem le_pow_levels (n : Nat) (hn : 1 ≤ n) : n ≤ 2 ^ levels n := by
  have h1 := le_mul_levelSize n (levels n)
  rw [levelSize_levels n hn] at h1
  simpa using h1

/-- A level whose ancestor position is occupied is within the old
tree's height. -/
theorem le_levels_of_div_pos (m l : Nat) (h : 1 ≤ m / 2 ^ l) :
    l ≤ levels m := by
  have h2 : 2 ^ l ≤ m := by
    have h3 := Nat.div_mul_le_self m (2 ^ l)
    have h4 : 1 * 2 ^ l ≤ m / 2 ^ l * 2 ^ l :=
      Nat.mul_le_mul_right _ h
    omega
  have h5 : 1 ≤ m := le_trans (Nat.one_le_two_pow) h2
  have h6 : 2 ^ l ≤ 2 ^ levels m := le_trans h2 (le_pow_levels m h5)
  exact Nat.pow_le_pow_iff_right (by omega) |>.mp h6

theorem rebuildPath_below (sha : String → String) :
    ∀ n tbl level pos l2 p, l2 ≤ level →
      rebuildPath sha tbl level pos n l2 p = tbl l2 p := by
  intro n
  induction n using Nat.strong_induction_on with
  | _ n ih =>
    intro tbl level pos l2 p hle
    rw [rebuildPath]
    by_cases h1 : n ≤ 1
    · rw [dif_pos h1]
    · rw [dif_neg h1]
      rw [ih ((n + 1) / 2) (by omega) _ _ _ _ _ (by omega)]
      unfold storeNode
      rw [if_neg]
      intro hx
      omega
/-- Storing the recomputed parent makes level `l+1` hold the intended
hashes for the appended leaf list: the ancestor slot gets the new
parent hash, every other in-range slot already held its (unchanged)
value. -/
theorem stepTbl_ok (sha : String → String) (hs : List String) (x : String)
    (l : Nat) (tbl : Nat → Nat → Option String)
    (h1 : ∀ p, p < levelSize (hs.length + 1) l →
      tbl l p = some (specHash sha (hs ++ [x]) l p))
    (h2 : ∀ l2 p2, l < l2 → l2 ≤ levels hs.length →
      p2 < levelSize hs.length l2 →
      tbl l2 p2 = some (specHash sha hs l2 p2)) :
    ∀ p, p < levelSize (hs.length + 1) (l + 1) →
      storeNode tbl (l + 1) (hs.length / 2 ^ l / 2)
        (hashNode sha ((tbl l (hs.length / 2 ^ l / 2 * 2)).getD "")
          (if hs.length / 2 ^ l / 2 * 2 + 1 < levelSize (hs.length + 1) l
           then (tbl l (hs.length / 2 ^ l / 2 * 2 + 1)).getD ""
           else (tbl l (hs.length / 2 ^ l / 2 * 2)).getD ""))
        (l + 1) p =
      some (specHash sha (hs ++ [x]) (l + 1) p) := by
  intro p hp
  have hdd : hs.length / 2 ^ l / 2 = hs.length / 2 ^ (l + 1) := by
    rw [Nat.div_div_eq_div_mul, pow_succ]
  obtain ⟨hszl, hszol⟩ := ancSize hs.length l
  obtain ⟨hszl1, hszol1⟩ := ancSize hs.length (l + 1)
  have hlen2 : (hs ++ [x]).length = hs.length + 1 := by simp
  by_cases hpa : p = hs.length / 2 ^ l / 2
  · subst hpa
    unfold storeNode
    rw [if_pos ⟨rfl, rfl⟩]
    congr 1
    simp only [specHash, hlen2]
    have hcomm : 2 * (hs.length / 2 ^ l / 2) = hs.length / 2 ^ l / 2 * 2 :=
      Nat.mul_comm _ _
    rw [hcomm]
    rw [h1 (hs.length / 2 ^ l / 2 * 2) (by omega)]
    by_cases hcr : hs.length / 2 ^ l / 2 * 2 + 1 < levelSize (hs.length + 1) l
    · rw [if_pos hcr, if_pos hcr, h1 (hs.length / 2 ^ l / 2 * 2 + 1) hcr]
      rfl
    · rw [if_neg hcr, if_neg hcr]
      rfl
  · unfold storeNode
    rw [if_neg (fun hx => hpa hx.2)]
    have hplt : p < hs.length / 2 ^ (l + 1) := by omega
    have hlev1 : l + 1 ≤ levels hs.length :=
      le_levels_of_div_pos hs.length (l + 1) (by omega)
    have hold : p < levelSize hs.length (l + 1) := by omega
    rw [h2 (l + 1) p (by omega) hlev1 hold,
      specHash_append_ne sha hs x (l + 1) p hold (by omega)]
/-- `_rebuild_path` starting at the new leaf position restores the
node-table invariant for the appended leaf list at every level from
the starting one up. -/
theorem rebuildPath_ok (sha : String → String) (hs : List String)
    (x : String) :
    ∀ n l tbl, n = levelSize (hs.length + 1) l →
      (∀ p, p < levelSize (hs.length + 1) l →
        tbl l p = some (specHash sha (hs ++ [x]) l p)) →
      (∀ l2 p2, l < l2 → l2 ≤ levels hs.length →
        p2 < levelSize hs.length l2 →
        tbl l2 p2 = some (specHash sha hs l2 p2)) →
      ∀ l2 p2, l ≤ l2 → l2 ≤ levels (hs.length + 1) →
        p2 < levelSize (hs.length + 1) l2 →
        rebuildPath sha tbl l (hs.length / 2 ^ l) n l2 p2 =
          some (specHash sha (hs ++ [x]) l2 p2) := by
  intro n
  induction n using Nat.strong_induction_on with
  | _ n ih =>
    intro l tbl hn h1 h2 l2 p2 hll2 hl2lev hp2
    subst hn
    rw [rebuildPath]
    by_cases hn1 : levelSize (hs.length + 1) l ≤ 1
    · rw [dif_pos hn1]
      have hlev : levels (hs.length + 1) ≤ l :=
        levels_le (hs.length + 1) l hn1
      have hl2 : l2 = l := by omega
      subst hl2
      exact h1 p2 hp2
    · rw [dif_neg hn1]
      have hdd : hs.length / 2 ^ l / 2 = hs.length / 2 ^ (l + 1) := by
        rw [Nat.div_div_eq_div_mul, pow_succ]
      have hslev : levelSize (hs.length + 1) (l + 1) =
          (levelSize (hs.length + 1) l + 1) / 2 := rfl
      rw [hdd]
      have h1n := stepTbl_ok sha hs x l tbl h1 h2
      rw [hdd] at h1n
      by_cases hl2eq : l2 = l
      · subst hl2eq
        rw [rebuildPath_below sha _ _ _ _ _ _ (by omega)]
        unfold storeNode
        rw [if_neg (fun hx => by omega)]
        exact h1 p2 hp2
      · have h2n : ∀ (v : String) (l3 p3 : Nat), l + 1 < l3 →
            l3 ≤ levels hs.length → p3 < levelSize hs.length l3 →
            storeNode tbl (l + 1) (hs.length / 2 ^ (l + 1)) v l3 p3 =
              some (specHash sha hs l3 p3) := by
          intro v l3 p3 hl3 hl3lev hp3
          unfold storeNode
          rw [if_neg (fun hx => by omega)]
          exact h2 l3 p3 (by omega) hl3lev hp3
        exact ih ((levelSize (hs.length + 1) l + 1) / 2)
          (by omega) (l + 1) _ hslev.symm h1n (h2n _)
          l2 p2 (by omega) hl2lev hp2
theorem levelSize_zero : ∀ l, levelSize 0 l = 0 := by
  intro l
  induction l with
  | zero => rfl
  | succ l ih =>
    show (levelSize 0 l + 1) / 2 = 0
    omega

/-- `append` preserves the node-table invariant. -/
theorem appendLeaf_TblOk (sha : String → String) (t : MTree) (d : String)
    (hOk : TblOk sha t.leaves t.nodes) :
    TblOk sha (appendLeaf sha t d).leaves (appendLeaf sha t d).nodes := by
  intro l p hl hp
  have hla : (appendLeaf sha t d).leaves = t.leaves ++ [hashLeaf sha d] :=
    rfl
  have hlen : (t.leaves ++ [hashLeaf sha d]).length = t.leaves.length + 1 :=
    by simp
  rw [hla, hlen] at hl hp
  show rebuildPath sha
      (storeNode t.nodes 0 t.leaves.length (hashLeaf sha d))
      0 t.leaves.length (t.leaves.length + 1) l p =
    some (specHash sha (t.leaves ++ [hashLeaf sha d]) l p)
  have hm : t.leaves.length / 2 ^ 0 = t.leaves.length := by simp
  have h1 : ∀ q, q < levelSize (t.leaves.length + 1) 0 →
      storeNode t.nodes 0 t.leaves.length (hashLeaf sha d) 0 q =
        some (specHash sha (t.leaves ++ [hashLeaf sha d]) 0 q) := by
    intro q hq
    have hq2 : q < t.leaves.length + 1 := hq
    by_cases hqm : q = t.leaves.length
    · subst hqm
      unfold storeNode
      rw [if_pos ⟨rfl, rfl⟩]
      show some (hashLeaf sha d) =
        some ((t.leaves ++ [hashLeaf sha d]).getD t.leaves.length "")
      rw [List.getD_eq_getElem?_getD, List.getElem?_concat_length]
      rfl
    · unfold storeNode
      rw [if_neg (fun hx => hqm hx.2)]
      have hql : q < t.leaves.length := by omega
      have hold := hOk 0 q (Nat.zero_le _) hql
      rw [hold, specHash_append_ne sha t.leaves (hashLeaf sha d) 0 q hql
        (by simpa using hqm)]
  have h2 : ∀ l2 p2, 0 < l2 → l2 ≤ levels t.leaves.length →
      p2 < levelSize t.leaves.length l2 →
      storeNode t.nodes 0 t.leaves.length (hashLeaf sha d) l2 p2 =
        some (specHash sha t.leaves l2 p2) := by
    intro l2 p2 h02 hl2 hp2
    unfold storeNode
    rw [if_neg (fun hx => by omega)]
    exact hOk l2 p2 hl2 hp2
  have hfin := rebuildPath_ok sha t.leaves (hashLeaf sha d)
    (t.leaves.length + 1) 0
    (storeNode t.nodes 0 t.leaves.length (hashLeaf sha d)) rfl h1 h2
    l p (Nat.zero_le _) hl hp
  rw [hm] at hfin
  exact hfin

/-- Every tree built by `append` calls satisfies the invariant. -/
theorem buildTree_TblOk (sha : String → String) (ds : List String) :
    TblOk sha (buildTree sha ds).leaves (buildTree sha ds).nodes := by
  unfold buildTree
  have hstep : ∀ (t : MTree), TblOk sha t.leaves t.nodes →
      TblOk sha (ds.foldl (appendLeaf sha) t).leaves
        (ds.foldl (appendLeaf sha) t).nodes := by
    induction ds with
    | nil => intro t h; exact h
    | cons a tl ih =>
      intro t h
      rw [List.foldl_cons]
      exact ih _ (appendLeaf_TblOk sha t a h)
  refine hstep _ ?_
  intro l p hl hp
  have hp2 : p < levelSize 0 l := hp
  rw [levelSize_zero] at hp2
  omega
theorem foldProof_cons (sha : String → String) (sb : String × Bool)
    (prf : List (String × Bool)) (s : String) :
    foldProof sha (sb :: prf) s =
      foldProof sha prf
        (if sb.2 then hashNode sha sb.1 s else hashNode sha s sb.1) := rfl

/-- Folding the audit proof from any in-range node reproduces the
intended root hash. -/
theorem getProofAux_fold (sha : String → String) (hs : List String)
    (tbl : Nat → Nat → Option String) (hOk : TblOk sha hs tbl)
    (hn : 1 ≤ hs.length) :
    ∀ d l pos, l + d = levels hs.length → pos < levelSize hs.length l →
      ∃ prf, getProofAux tbl l pos (levelSize hs.length l) = some prf ∧
        foldProof sha prf (specHash sha hs l pos) =
          specHash sha hs (levels hs.length) 0 := by
  intro d
  induction d with
  | zero =>
    intro l pos hld hpos
    have hleq : l = levels hs.length := by omega
    subst hleq
    rw [levelSize_levels hs.length hn] at hpos
    have hpos0 : pos = 0 := by omega
    subst hpos0
    refine ⟨[], ?_, rfl⟩
    rw [levelSize_levels hs.length hn, getProofAux, dif_pos (by omega)]
  | succ dl ih =>
    intro l pos hld hpos
    have hllev : l < levels hs.length := by omega
    have hsz2 : 2 ≤ levelSize hs.length l :=
      levelSize_ge_two hs.length l hllev
    have hs2def : levelSize hs.length (l + 1) =
        (levelSize hs.length l + 1) / 2 := rfl
    obtain ⟨rest, hrest, hfold⟩ := ih (l + 1) (pos / 2) (by omega)
      (by omega)
    rw [getProofAux, dif_neg (by omega)]
    dsimp only
    by_cases hpar : pos % 2 = 0
    · rw [if_pos hpar]
      have hside : decide (pos % 2 = 1) = false :=
        decide_eq_false (by omega)
      by_cases hsib : pos + 1 < levelSize hs.length l
      · rw [if_pos hsib, hOk l (pos + 1) (by omega) hsib,
          show (levelSize hs.length l + 1) / 2 =
            levelSize hs.length (l + 1) from rfl, hrest]
        refine ⟨_, rfl, ?_⟩
        rw [foldProof_cons]
        have hanc : specHash sha hs (l + 1) (pos / 2) =
            hashNode sha (specHash sha hs l pos)
              (specHash sha hs l (pos + 1)) := by
          simp only [specHash]
          have h2p : 2 * (pos / 2) = pos := by omega
          rw [h2p, if_pos hsib]
        rw [hside, if_neg (by simp)]
        rw [← hanc]
        exact hfold
      · rw [if_neg hsib, hOk l pos (by omega) hpos,
          show (levelSize hs.length l + 1) / 2 =
            levelSize hs.length (l + 1) from rfl, hrest]
        refine ⟨_, rfl, ?_⟩
        rw [foldProof_cons]
        have hanc : specHash sha hs (l + 1) (pos / 2) =
            hashNode sha (specHash sha hs l pos)
              (specHash sha hs l pos) := by
          simp only [specHash]
          have h2p : 2 * (pos / 2) = pos := by omega
          rw [h2p, if_neg hsib]
        rw [hside, if_neg (by simp)]
        rw [← hanc]
        exact hfold
    · rw [if_neg hpar]
      have hside : decide (pos % 2 = 1) = true :=
        decide_eq_true (by omega)
      have hsib : pos - 1 < levelSize hs.length l := by omega
      rw [if_pos hsib, hOk l (pos - 1) (by omega) hsib,
        show (levelSize hs.length l + 1) / 2 =
          levelSize hs.length (l + 1) from rfl, hrest]
      refine ⟨_, rfl, ?_⟩
      rw [foldProof_cons]
      have hanc : specHash sha hs (l + 1) (pos / 2) =
          hashNode sha (specHash sha hs l (pos - 1))
            (specHash sha hs l pos) := by
        simp only [specHash]
        have h2p : 2 * (pos / 2) = pos - 1 := by omega
        rw [h2p, show pos - 1 + 1 = pos from by omega, if_pos hpos]
      rw [hside, if_pos rfl]
      rw [← hanc]
      exact hfold
theorem verify_ok_of_TblOk (sha : String → String) (t : MTree)
    (hOk : TblOk sha t.leaves t.nodes) (i : Nat) (h : String)
    (hlook : t.leaves[i]? = some h) :
    verify sha t i h = true ∧
    ∃ prf, getProof t i = some prf ∧
      rootHash t = some (foldProof sha prf h) := by
  have hi : i < t.leaves.length := lt_of_getElem?_some hlook
  have hn1 : 1 ≤ t.leaves.length := by omega
  have hspec0 : specHash sha t.leaves 0 i = h := by
    show t.leaves.getD i "" = h
    rw [List.getD_eq_getElem?_getD, hlook]
    rfl
  have hroot : t.nodes (levels t.leaves.length) 0 =
      some (specHash sha t.leaves (levels t.leaves.length) 0) := by
    have hszpos := levelSize_pos t.leaves.length hn1 (levels t.leaves.length)
    exact hOk (levels t.leaves.length) 0 le_rfl (by omega)
  have hrootHash : rootHash t =
      some (specHash sha t.leaves (levels t.leaves.length) 0) := by
    unfold rootHash
    rw [if_neg (by omega), hroot]
  obtain ⟨prf, hprf, hfold⟩ := getProofAux_fold sha t.leaves t.nodes hOk hn1
    (levels t.leaves.length) 0 i (by omega)
    (show i < levelSize t.leaves.length 0 from hi)
  have hgp : getProof t i = some prf := by
    unfold getProof
    rw [if_pos hi]
    exact hprf
  constructor
  · unfold verify
    rw [hlook]
    dsimp only
    rw [if_neg (fun hx => hx rfl), hgp, hrootHash]
    dsimp only
    rw [← hspec0, hfold]
    simp
  · refine ⟨prf, hgp, ?_⟩
    rw [hrootHash, ← hspec0, hfold]

/-- **C4.**  On any tree built by a sequence of `append` calls (for an
arbitrary hash function), `verify(i, leaf_hash_i)` returns `true` for
every leaf index `i < leaf_count`: the ordered `(sibling, side)` pairs
of `get_proof(i)`, folded with the domain-separated internal hash and
the last odd node of a level duplicated, reproduce exactly the stored
root (second conjunct of the per-index statement); and the root of an
empty tree is the 64-zero sentinel. -/
theorem c4_merkle_verify (sha : String → String) (ds : List String) :
    (∀ i h, (buildTree sha ds).leaves[i]? = some h →
      verify sha (buildTree sha ds) i h = true ∧
      ∃ prf, getProof (buildTree sha ds) i = some prf ∧
        rootHash (buildTree sha ds) = some (foldProof sha prf h)) ∧
    rootHash (buildTree sha []) = some emptyRoot := by
  constructor
  · intro i h hlook
    exact verify_ok_of_TblOk sha (buildTree sha ds)
      (buildTree_TblOk sha ds) i h hlook
  · rfl

def c4sha (b : String) : String := "H(" ++ b ++ ")"

def c4ds : List String := ["a", "b", "c"]

theorem c4_merkle_verify_witness :
    (buildTree c4sha c4ds).leaves[2]? = some (c4sha ("\x00" ++ "c")) ∧
    verify c4sha (buildTree c4sha c4ds) 2 (c4sha ("\x00" ++ "c")) = true ∧
    verify c4sha (buildTree c4sha c4ds) 0 (c4sha ("\x00" ++ "a")) = true ∧
    rootHash (buildTree c4sha []) = some emptyRoot := by
  refine ⟨rfl, ?_, ?_, (c4_merkle_verify c4sha c4ds).2⟩
  · exact ((c4_merkle_verify c4sha c4ds).1 2 _ rfl).1
  · exact ((c4_merkle_verify c4sha c4ds).1 0 _ rfl).1
end A2ASE